import Mathlib

/-!
Shallow embedding of the AgentBox core (TypeScript) used to check the
specification's claims.

* `Scheduler` (src/src/scheduler.ts) — FIFO admission queue with a
  concurrency bound, pause/resume/cancel, completion bookkeeping.
  Job ids are modelled as consecutive naturals (`randomUUID` only needs
  freshness); the completion promise of a job is modelled by a
  settle-once table, and the asynchronous settling of a job body by an
  explicit `completeOp` transition, since the scheduler runs
  single-threaded and every mutation happens between await points.
* `ClaimGraph` (src/src/claim-graph.ts) — claims, typed links,
  confidence adjustment, summarize.  JS numbers are modelled as `ℚ`.
* `ExecutionContext.run` (src/src/execution-context.ts) — the phase
  sequence with its try/catch/finally structure; the effectful phase
  bodies (validation, MCP connection, LLM description, job execution)
  are abstracted as error oracles in `RunEnv`, while finalize
  (claim-graph summary, job collection) is the real model.
* `PolicyEnforcer` and `MessageRouter` (src/src/policy-enforcer.ts,
  src/src/message-router.ts) — per-agent budget records and the
  sliding-window rate limiter, with `Date.now()` passed explicitly as a
  natural-number timestamp in milliseconds.

Fields the claims never mention (`createdAt`, job `result`/`error`
payloads, message payload contents) are either elided or carried
opaquely as strings.
-/

namespace AgentBox

/-- Job lifecycle status (`JobStatus` in src/src/types.ts). -/
inductive JobStatus
  | pending
  | running
  | completed
  | cancelled
  | failed
deriving DecidableEq, Repr

/-- One scheduled job (src/src/types.ts `Job`); `createdAt`, `result` and
`error` are elided since no claim inspects them. -/
structure Job where
  id : Nat
  agentName : String
  task : String
  status : JobStatus
deriving DecidableEq, Repr

/-- A freshly constructed pending job (the `const job: Job = {...}` of
`enqueue`). -/
def mkJob (id : Nat) (agentName task : String) : Job :=
  { id := id, agentName := agentName, task := task, status := JobStatus.pending }

/-- How a job's completion promise settled. -/
inductive SettleResult
  | resolved
  | rejected
deriving DecidableEq, Repr

/-- Whether a job body's own promise fulfilled or rejected. -/
inductive Outcome
  | success
  | failure
deriving DecidableEq, Repr

/-- Events emitted by the scheduler (`job:scheduled`, `job:completed`,
`job:cancelled`), tagged by job id. -/
inductive SchedEvent
  | scheduled (j : Nat)
  | completed (j : Nat)
  | cancelled (j : Nat)
deriving DecidableEq, Repr

/-- Scheduler state (fields of `class Scheduler`).  `queue` and `running`
hold job ids (`queue: QueuedJob[]`, `running: Map<string, QueuedJob>`);
`allJobs` is the all-time job log; `settled` records the first (and only)
settlement of each job's promise; `started` records ids whose
`item.execute()` has been invoked and `bodyDone` those whose body promise
has already settled — bookkeeping for the asynchronous `.then/.catch`
handlers of `startJob`. -/
structure SchedState where
  allJobs : List Job
  queue : List Nat
  running : List Nat
  started : List Nat
  bodyDone : List Nat
  settled : List (Nat × SettleResult)
  events : List SchedEvent
  maxParallel : Nat
  paused : Bool
deriving DecidableEq, Repr

/-- A fresh scheduler (`new Scheduler(eventBus, maxParallel)`). -/
def initSched (maxParallel : Nat) : SchedState :=
  { allJobs := [], queue := [], running := [], started := [], bodyDone := []
    settled := [], events := [], maxParallel := maxParallel, paused := false }

/-- Status of job `j` in the job log, if the id exists. -/
def getStatus (s : SchedState) (j : Nat) : Option JobStatus :=
  (s.allJobs.find? (fun job => job.id = j)).map (fun job => job.status)

/-- In-place status update of the `Job` record with id `j`
(`item.job.status = ...`). -/
def setStatus (s : SchedState) (j : Nat) (st : JobStatus) : SchedState :=
  { s with allJobs :=
      s.allJobs.map (fun job => if job.id = j then { job with status := st } else job) }

/-- Append an emitted event. -/
def addEvent (s : SchedState) (e : SchedEvent) : SchedState :=
  { s with events := s.events ++ [e] }

/-- How job `j`'s promise settled, if it has. -/
def lookupSettle (s : SchedState) (j : Nat) : Option SettleResult :=
  (s.settled.find? (fun p => p.1 = j)).map (fun p => p.2)

/-- Settle job `j`'s promise: a JS promise settles at most once, so a
second resolve/reject is a no-op. -/
def trySettle (s : SchedState) (j : Nat) (r : SettleResult) : SchedState :=
  match lookupSettle s j with
  | some _ => s
  | none => { s with settled := s.settled ++ [(j, r)] }

/-- `startJob(item)`: mark the job running, put it in the running set and
invoke `item.execute()` (recorded in `started`; the body's eventual
settlement is the separate `completeJob` transition). -/
def startJob (s : SchedState) (j : Nat) : SchedState :=
  let s1 := setStatus s j JobStatus.running
  { s1 with running := s1.running ++ [j], started := s1.started ++ [j] }

/-- The `while` loop of `drain()`:
`while (running.size < maxParallel && queue.length > 0) startJob(queue.shift())`.
The first argument is always the state's own queue (passed separately so
the recursion is structural). -/
def drainAux : List Nat → SchedState → SchedState
  | [], s => s
  | item :: rest, s =>
    if s.running.length < s.maxParallel then
      drainAux rest (startJob { s with queue := rest } item)
    else s

/-- `drain()`: `if (paused) return;` then the fill loop. -/
def drain (s : SchedState) : SchedState :=
  if s.paused then s else drainAux s.queue s

/-- `enqueue(agentName, task, execute)`: construct a pending job with a
fresh id, log it, push it on the queue, emit `job:scheduled`, drain. -/
def enqueue (s : SchedState) (agentName task : String) : SchedState :=
  let id := s.allJobs.length
  let job : Job := { id := id, agentName := agentName, task := task, status := JobStatus.pending }
  let s1 := { s with allJobs := s.allJobs ++ [job] }
  let s2 := addEvent { s1 with queue := s1.queue ++ [id] } (SchedEvent.scheduled id)
  drain s2

/-- The `.then/.catch/.finally` continuation of `startJob`: when job `j`'s
body promise settles (possible exactly when the body was started and has
not settled before), set the terminal status, emit `job:completed`,
resolve/reject the job's promise, remove the running-set entry and
re-drain. -/
def completeJob (s : SchedState) (j : Nat) (oc : Outcome) : SchedState :=
  if j ∈ s.started ∧ j ∉ s.bodyDone then
    let s1 := setStatus s j (match oc with
      | Outcome.success => JobStatus.completed
      | Outcome.failure => JobStatus.failed)
    let s2 := addEvent s1 (SchedEvent.completed j)
    let s3 := trySettle s2 j (match oc with
      | Outcome.success => SettleResult.resolved
      | Outcome.failure => SettleResult.rejected)
    let s4 := { s3 with running := s3.running.erase j, bodyDone := s3.bodyDone ++ [j] }
    drain s4
  else s

/-- `cancel(jobId)`: a pending job is removed from the queue, marked
cancelled, `job:cancelled` is emitted and its promise rejected; a running
job is only marked cancelled (the in-flight body is not interrupted);
otherwise return `false` and change nothing. -/
def cancel (s : SchedState) (j : Nat) : Bool × SchedState :=
  if j ∈ s.queue then
    let s1 := setStatus { s with queue := s.queue.erase j } j JobStatus.cancelled
    let s2 := trySettle (addEvent s1 (SchedEvent.cancelled j)) j SettleResult.rejected
    (true, s2)
  else if j ∈ s.running then
    (true, addEvent (setStatus s j JobStatus.cancelled) (SchedEvent.cancelled j))
  else (false, s)

/-- Body of the two `for` loops of `cancelAll()`: mark cancelled, emit
`job:cancelled`, reject the promise. -/
def cancelOne (s : SchedState) (j : Nat) : SchedState :=
  trySettle (addEvent (setStatus s j JobStatus.cancelled) (SchedEvent.cancelled j)) j
    SettleResult.rejected

/-- `cancelAll()`: cancel-and-reject every queued job, clear the queue,
then cancel-and-reject every running job and clear the running set. -/
def cancelAll (s : SchedState) : SchedState :=
  let s1 := { s.queue.foldl cancelOne s with queue := [] }
  { s1.running.foldl cancelOne s1 with running := [] }

/-- `pause()`. -/
def pauseSched (s : SchedState) : SchedState :=
  { s with paused := true }

/-- `resume()`: clear the flag and drain. -/
def resumeSched (s : SchedState) : SchedState :=
  drain { s with paused := false }

/-- An externally observable scheduler transition: the public operations
plus the asynchronous settlement of a started job's body. -/
inductive SchedOp
  | enq (agentName task : String)
  | pauseOp
  | resumeOp
  | cancelOp (j : Nat)
  | cancelAllOp
  | completeOp (j : Nat) (oc : Outcome)
deriving DecidableEq, Repr

/-- Apply one transition. -/
def applyOp (s : SchedState) : SchedOp → SchedState
  | SchedOp.enq a t => enqueue s a t
  | SchedOp.pauseOp => pauseSched s
  | SchedOp.resumeOp => resumeSched s
  | SchedOp.cancelOp j => (cancel s j).2
  | SchedOp.cancelAllOp => cancelAll s
  | SchedOp.completeOp j oc => completeJob s j oc

/-- Apply a sequence of transitions. -/
def applyOps (s : SchedState) (ops : List SchedOp) : SchedState :=
  ops.foldl applyOp s

/-- The ids of all logged jobs, in creation order. -/
def jobIds (s : SchedState) : List Nat :=
  s.allJobs.map (fun job => job.id)

/-- States of the scheduler that can actually arise: some transition
sequence from a freshly constructed scheduler. -/
def SchedReachable (s : SchedState) : Prop :=
  ∃ (n : Nat) (ops : List SchedOp), s = applyOps (initSched n) ops

/-- The scheduler's structural invariant. -/
structure SchedInv (s : SchedState) : Prop where
  run_le : s.running.length ≤ s.maxParallel
  queue_nodup : s.queue.Nodup
  run_nodup : s.running.Nodup
  disjoint : ∀ j ∈ s.queue, j ∉ s.running
  ids_range : jobIds s = List.range s.allJobs.length
  queue_pending : ∀ j ∈ s.queue,
    getStatus s j = some JobStatus.pending ∧ j ∉ s.started ∧ lookupSettle s j = none
  run_state : ∀ j ∈ s.running,
    (getStatus s j = some JobStatus.running ∨ getStatus s j = some JobStatus.cancelled) ∧
      j ∈ s.started ∧ j ∉ s.bodyDone ∧ lookupSettle s j = none
  started_lt : ∀ j ∈ s.started, j < s.allJobs.length
  bodyDone_started : ∀ j ∈ s.bodyDone, j ∈ s.started
  settled_lt : ∀ p ∈ s.settled, p.1 < s.allJobs.length
  final_done : ∀ job ∈ s.allJobs,
    (job.status = JobStatus.completed ∨ job.status = JobStatus.failed) →
      job.id ∈ s.bodyDone ∧ job.id ∉ s.queue ∧ job.id ∉ s.running
  cancelled_out : ∀ job ∈ s.allJobs, job.status = JobStatus.cancelled → job.id ∉ s.queue

-- ── Claim graph ──────────────────────────────────────────────────────────

/-- `ClaimLinkType` in src/src/types.ts. -/
inductive ClaimLinkType
  | supports
  | challenges
deriving DecidableEq, Repr

/-- A typed link stored on the source claim, pointing at the target. -/
structure ClaimLink where
  targetClaimId : Nat
  type : ClaimLinkType
deriving DecidableEq, Repr

/-- A claim (src/src/types.ts `Claim`); `createdAt` elided, ids modelled
as consecutive naturals. -/
structure Claim where
  id : Nat
  statement : String
  evidence : List String
  confidence : ℚ
  author : String
  links : List ClaimLink
deriving DecidableEq, Repr

/-- The claim store (`claims: Map<string, Claim>` in insertion order)
plus the fresh-id source. -/
structure ClaimGraphState where
  claims : List Claim
  nextId : Nat
deriving DecidableEq, Repr

/-- A fresh claim graph. -/
def emptyGraph : ClaimGraphState := { claims := [], nextId := 0 }

/-- `addClaim(statement, author, evidence = [], confidence = 0.5)`. -/
def addClaim (g : ClaimGraphState) (statement author : String)
    (evidence : List String) (confidence : ℚ) : ClaimGraphState :=
  { claims := g.claims ++
      [{ id := g.nextId, statement := statement, evidence := evidence
         confidence := confidence, author := author, links := [] }]
    nextId := g.nextId + 1 }

/-- `getClaim(id)`. -/
def getClaim (g : ClaimGraphState) (id : Nat) : Option Claim :=
  g.claims.find? (fun c => c.id = id)

/-- `addLink(targetId, sourceId, type)`: `none` models the thrown
`Claim not found` error (the graph is unchanged in that case); otherwise
the typed link is appended to the source claim's link list. -/
def addLink (g : ClaimGraphState) (targetId sourceId : Nat) (ty : ClaimLinkType) :
    Option ClaimGraphState :=
  match getClaim g targetId, getClaim g sourceId with
  | some _, some _ => some
      { g with claims := g.claims.map (fun c =>
          if c.id = sourceId then
            { c with links := c.links ++ [{ targetClaimId := targetId, type := ty }] }
          else c) }
  | _, _ => none

/-- `if (target) target.confidence = f(target.confidence)`. -/
def adjustConfidence (g : ClaimGraphState) (id : Nat) (f : ℚ → ℚ) : ClaimGraphState :=
  { g with claims := g.claims.map (fun c =>
      if c.id = id then { c with confidence := f c.confidence } else c) }

/-- `challengeClaim(target, challenger)`: link, then lower the target's
confidence by 0.1 clamped at 0. -/
def challengeClaim (g : ClaimGraphState) (targetClaimId challengerClaimId : Nat) :
    ClaimGraphState :=
  match addLink g targetClaimId challengerClaimId ClaimLinkType.challenges with
  | none => g
  | some g1 => adjustConfidence g1 targetClaimId (fun c => max 0 (c - 1/10))

/-- `supportClaim(target, supporter)`: link, then raise the target's
confidence by 0.1 clamped at 1. -/
def supportClaim (g : ClaimGraphState) (targetClaimId supporterClaimId : Nat) :
    ClaimGraphState :=
  match addLink g targetClaimId supporterClaimId ClaimLinkType.supports with
  | none => g
  | some g1 => adjustConfidence g1 targetClaimId (fun c => min 1 (c + 1/10))

/-- The set of ids that are the target of a `challenges` link, built by
the nested loops at the top of `summarize()`. -/
def challengedIds (g : ClaimGraphState) : List Nat :=
  g.claims.foldl (fun acc c =>
    acc ++ (c.links.filter (fun l => l.type = ClaimLinkType.challenges)).map
      (fun l => l.targetClaimId)) []

/-- Stable insertion into a list sorted by descending confidence. -/
def insertDesc (c : Claim) : List Claim → List Claim
  | [] => [c]
  | d :: rest =>
    if d.confidence ≤ c.confidence then c :: d :: rest else d :: insertDesc c rest

/-- `[...all].sort((a, b) => b.confidence - a.confidence)`. -/
def sortByConfDesc : List Claim → List Claim
  | [] => []
  | c :: rest => insertDesc c (sortByConfDesc rest)

/-- Result of `summarize()`. -/
structure ClaimSummary where
  total : Nat
  consensus : List String
  conflicts : List String
  claims : List Claim
deriving Repr

/-- `summarize()`: `consensus` = statements of claims with confidence
≥ 0.7 not in `challengedIds`; `conflicts` = statements of claims in
`challengedIds`; `claims` = all claims sorted by confidence descending. -/
def summarize (g : ClaimGraphState) : ClaimSummary :=
  let all := g.claims
  let challenged := challengedIds g
  { total := all.length
    consensus := (all.filter (fun c =>
        decide ((7 : ℚ)/10 ≤ c.confidence) && decide (c.id ∉ challenged))).map
      (fun c => c.statement)
    conflicts := (all.filter (fun c => decide (c.id ∈ challenged))).map
      (fun c => c.statement)
    claims := sortByConfDesc all }

/-- One claim links to target `id` with a `challenges`-typed link. -/
def isChallenged (g : ClaimGraphState) (id : Nat) : Prop :=
  ∃ c ∈ g.claims, ∃ l ∈ c.links,
    l.type = ClaimLinkType.challenges ∧ l.targetClaimId = id

instance (g : ClaimGraphState) (id : Nat) : Decidable (isChallenged g id) := by
  unfold isChallenged
  exact inferInstance

/-- A claim-graph operation (the mutating public API). -/
inductive ClaimOp
  | add (statement author : String) (evidence : List String) (confidence : ℚ)
  | challenge (targetId sourceId : Nat)
  | support (targetId sourceId : Nat)

/-- Apply one claim-graph operation. -/
def applyClaimOp (g : ClaimGraphState) : ClaimOp → ClaimGraphState
  | ClaimOp.add st au ev conf => addClaim g st au ev conf
  | ClaimOp.challenge t src => challengeClaim g t src
  | ClaimOp.support t src => supportClaim g t src

/-- Apply a sequence of claim-graph operations. -/
def applyClaimOps (g : ClaimGraphState) (ops : List ClaimOp) : ClaimGraphState :=
  ops.foldl applyClaimOp g

/-- All confidences in the graph lie in `[0, 1]`. -/
def ConfInRange (g : ClaimGraphState) : Prop :=
  ∀ c ∈ g.claims, 0 ≤ c.confidence ∧ c.confidence ≤ 1

/-- Every `add` in the sequence supplies a confidence in `[0, 1]` (the
data model's type of `confidence`). -/
def RangedAdds (ops : List ClaimOp) : Prop :=
  ∀ op ∈ ops, match op with
    | ClaimOp.add _ _ _ conf => 0 ≤ conf ∧ conf ≤ 1
    | _ => True

-- ── Execution pipeline (`ExecutionContext.run`) ──────────────────────────

/-- The phases of `run()`, plus the unconditional cleanup. -/
inductive RunPhase
  | validatePhase
  | connectPhase
  | materializePhase
  | describePhase
  | executePhase
  | finalizeSummary
  | collectJobs
  | cleanupPhase
deriving DecidableEq, Repr

/-- What one `run()` returns on success (src/src/types.ts
`ExecutionResult`). -/
structure ExecutionResult where
  status : String
  claims : List Claim
  consensus : String
  conflicts : List String
  jobResults : List Job
deriving Repr

/-- Oracle for one run: whether each effectful phase throws (and with
what message), the claim graph as it stands when finalize would run, and
the scheduler's all-time job log.  `materializeAgents` performs no
throwing operation, so it has no error oracle. -/
structure RunEnv where
  validateErr : Option String
  connectErr : Option String
  describeErr : Option String
  executeErr : Option String
  graph : ClaimGraphState
  allJobs : List Job

/-- The control flow of `run(task)`: the `try` block runs the phases in
order and stops at the first throwing one; `summarize()` and the job
collection sit at the end of the `try` block, so they run only when every
earlier phase succeeded; the `finally` block (cleanup) always runs.  The
second component records which phases actually executed. -/
def runModel (env : RunEnv) : Except String ExecutionResult × List RunPhase :=
  match env.validateErr with
  | some e => (Except.error e, [RunPhase.validatePhase, RunPhase.cleanupPhase])
  | none =>
  match env.connectErr with
  | some e => (Except.error e,
      [RunPhase.validatePhase, RunPhase.connectPhase, RunPhase.cleanupPhase])
  | none =>
  match env.describeErr with
  | some e => (Except.error e,
      [RunPhase.validatePhase, RunPhase.connectPhase, RunPhase.materializePhase,
       RunPhase.describePhase, RunPhase.cleanupPhase])
  | none =>
  match env.executeErr with
  | some e => (Except.error e,
      [RunPhase.validatePhase, RunPhase.connectPhase, RunPhase.materializePhase,
       RunPhase.describePhase, RunPhase.executePhase, RunPhase.cleanupPhase])
  | none =>
    let summary := summarize env.graph
    (Except.ok
      { status := "completed", claims := summary.claims
        consensus := String.intercalate "; " summary.consensus
        conflicts := summary.conflicts, jobResults := env.allJobs },
     [RunPhase.validatePhase, RunPhase.connectPhase, RunPhase.materializePhase,
      RunPhase.describePhase, RunPhase.executePhase, RunPhase.finalizeSummary,
      RunPhase.collectJobs, RunPhase.cleanupPhase])

-- ── Policy enforcer (budget tracker) ─────────────────────────────────────

/-- Recognized policy options (src/src/types.ts `Policy`); token amounts
as naturals, costs as rationals. -/
structure Policy where
  maxParallel : Option Nat := none
  maxTokens : Option Nat := none
  maxCost : Option ℚ := none
  toolAllowlist : Option (List String) := none
  maxMessagesPerSecond : Option Nat := none
deriving DecidableEq, Repr

/-- Per-agent budget record (`AgentBudget`). -/
structure AgentBudget where
  policy : Policy
  tokensUsed : Nat
  costUsed : ℚ
deriving DecidableEq, Repr

/-- The enforcer's `budgets: Map<string, AgentBudget>`. -/
structure PolicyEnforcerState where
  budgets : List (String × AgentBudget)
deriving DecidableEq, Repr

/-- `Map.set` on an association list keyed by agent name. -/
def mapSet {α : Type} (l : List (String × α)) (name : String) (a : α) :
    List (String × α) :=
  if (l.find? (fun p => p.1 = name)).isSome then
    l.map (fun p => if p.1 = name then (name, a) else p)
  else l ++ [(name, a)]

/-- `Map.get(name)` on an association list keyed by agent name. -/
def alookup {α : Type} (l : List (String × α)) (name : String) : Option α :=
  (l.find? (fun p => p.1 = name)).map (fun p => p.2)

/-- `budgets.get(name)`. -/
def lookupBudget (st : PolicyEnforcerState) (name : String) : Option AgentBudget :=
  alookup st.budgets name

/-- `registerAgent(name, policy)`: store the policy with both counters
reset to zero. -/
def registerAgent (st : PolicyEnforcerState) (name : String) (policy : Policy) :
    PolicyEnforcerState :=
  { budgets := mapSet st.budgets name { policy := policy, tokensUsed := 0, costUsed := 0 } }

/-- The token-limit check of `checkBudget` (`tokensUsed >= maxTokens`). -/
def checkTokenLimit (b : AgentBudget) : Option String :=
  match b.policy.maxTokens with
  | some m => if m ≤ b.tokensUsed then some "exceeded token budget" else none
  | none => none

/-- The cost-limit check of `checkBudget` (`costUsed >= maxCost`). -/
def checkCostLimit (b : AgentBudget) : Option String :=
  match b.policy.maxCost with
  | some m => if m ≤ b.costUsed then some "exceeded cost budget" else none
  | none => none

/-- `checkBudget(name)`: `some msg` models the thrown error; an
unregistered agent passes; the token limit is tested before the cost
limit.  The enforcer state is not an output: the check is a pure read. -/
def checkBudget (st : PolicyEnforcerState) (name : String) : Option String :=
  match lookupBudget st name with
  | none => none
  | some b =>
    match checkTokenLimit b with
    | some e => some e
    | none => checkCostLimit b

/-- `addTokenUsage(name, tokens)`. -/
def addTokenUsage (st : PolicyEnforcerState) (name : String) (tokens : Nat) :
    PolicyEnforcerState :=
  { budgets := st.budgets.map (fun p =>
      if p.1 = name then (p.1, { p.2 with tokensUsed := p.2.tokensUsed + tokens }) else p) }

/-- `addCostUsage(name, cost)`. -/
def addCostUsage (st : PolicyEnforcerState) (name : String) (cost : ℚ) :
    PolicyEnforcerState :=
  { budgets := st.budgets.map (fun p =>
      if p.1 = name then (p.1, { p.2 with costUsed := p.2.costUsed + cost }) else p) }

/-- `clear()` (the budget part). -/
def clearEnforcer (_st : PolicyEnforcerState) : PolicyEnforcerState :=
  { budgets := [] }

/-- Accumulated token counter of `name` (0 when unregistered). -/
def tokensOf (st : PolicyEnforcerState) (name : String) : Nat :=
  ((lookupBudget st name).map (fun b => b.tokensUsed)).getD 0

/-- Accumulated cost counter of `name` (0 when unregistered). -/
def costOf (st : PolicyEnforcerState) (name : String) : ℚ :=
  ((lookupBudget st name).map (fun b => b.costUsed)).getD 0

/-- The registration prefix of `AgentRuntime.spawnAgent` (src/src/
agent-runtime.ts lines 216–232): the unit definition is registered only
if the name is not already known, but `registerAgent` — which resets the
counters — is called unconditionally.  The registry is modelled by the
list of known agent names. -/
def spawnAgentRegister (registry : List String) (st : PolicyEnforcerState)
    (name : String) (policy : Policy) : List String × PolicyEnforcerState :=
  ((if registry.contains name then registry else registry ++ [name]),
   registerAgent st name policy)

-- ── Message router ───────────────────────────────────────────────────────

/-- An agent-to-agent message; the opaque payload is carried as a string
and `timestamp` is `Date.now()` in ms. -/
structure AgentMessage where
  id : Nat
  sender : String
  recipient : String
  payload : String
  timestamp : Nat
deriving DecidableEq, Repr

/-- `message:sent` / `message:received` events, tagged by message id. -/
inductive RouterEvent
  | sent (id : Nat)
  | received (id : Nat)
deriving DecidableEq, Repr

/-- Router state: per-agent send timestamps and policies, the set of
agent names with a registered handler, a fresh message-id source and the
emitted events. -/
structure RouterState where
  sendTimestamps : List (String × List Nat)
  policies : List (String × Policy)
  handlers : List String
  nextId : Nat
  events : List RouterEvent
deriving DecidableEq, Repr

/-- Recorded send timestamps of one agent (empty when absent). -/
def timestampsOf (st : RouterState) (name : String) : List Nat :=
  (alookup st.sendTimestamps name).getD []

/-- Policy installed for one agent. -/
def policyOf (st : RouterState) (name : String) : Option Policy :=
  alookup st.policies name

/-- `checkRateLimit(agentName)`: no policy or no `maxMessagesPerSecond`
passes; otherwise count the recorded sends of the last 1000 ms and throw
(`some msg`) when the count is at/above the limit. -/
def checkRateLimit (st : RouterState) (agentName : String) (now : Nat) : Option String :=
  match (policyOf st agentName).bind (fun p => p.maxMessagesPerSecond) with
  | none => none
  | some maxPerSecond =>
    let timestamps := timestampsOf st agentName
    let recentCount := (timestamps.filter (fun t => now - t < 1000)).length
    if maxPerSecond ≤ recentCount then some "Rate limit exceeded" else none

/-- `recordSend(agentName)`: prune timestamps older than 2000 ms, append
`now`. -/
def recordSend (st : RouterState) (agentName : String) (now : Nat) : RouterState :=
  let timestamps := timestampsOf st agentName
  let recent := timestamps.filter (fun t => now - t < 2000)
  { st with sendTimestamps := mapSet st.sendTimestamps agentName (recent ++ [now]) }

/-- `sendMessage(from, to, payload)` at time `now`: rate-limit check,
construct the message, record the send, emit `message:sent`, and — when a
handler is registered for the recipient — deliver synchronously and emit
`message:received`.  `Except.error` models the thrown rate-limit error. -/
def sendMessage (st : RouterState) (sender recipient payload : String) (now : Nat) :
    Except String (AgentMessage × RouterState) :=
  match checkRateLimit st sender now with
  | some e => Except.error e
  | none =>
    let message : AgentMessage :=
      { id := st.nextId, sender := sender, recipient := recipient
        payload := payload, timestamp := now }
    let st1 := recordSend st sender now
    let st2 := { st1 with nextId := st1.nextId + 1
                          events := st1.events ++ [RouterEvent.sent message.id] }
    let st3 := if st2.handlers.contains recipient then
        { st2 with events := st2.events ++ [RouterEvent.received message.id] }
      else st2
    Except.ok (message, st3)

/-- Run a sequence of send attempts from one agent at the given times;
the boolean list records which attempts succeeded (a failed attempt
leaves the state unchanged, as the throw happens before any mutation). -/
def runSends (st : RouterState) (sender recipient payload : String) :
    List Nat → RouterState × List Bool
  | [] => (st, [])
  | now :: rest =>
    match sendMessage st sender recipient payload now with
    | Except.ok (_, st1) =>
      let r := runSends st1 sender recipient payload rest
      (r.1, true :: r.2)
    | Except.error _ =>
      let r := runSends st sender recipient payload rest
      (r.1, false :: r.2)

/-- The times of the successful attempts among `ts` with outcome flags
`flags`. -/
def successTimes (ts : List Nat) (flags : List Bool) : List Nat :=
  ((ts.zip flags).filter (fun p => p.2)).map (fun p => p.1)

/-- Number of entries of `l` within the trailing 1000 ms window of
`now`. -/
def countRecent (l : List Nat) (now : Nat) : Nat :=
  (l.filter (fun t => now - t < 1000)).length

/-- A fresh router in which `sender` has rate limit `k` installed. -/
def mkRouter (sender : String) (k : Nat) : RouterState :=
  { sendTimestamps := [], policies := [(sender, { maxMessagesPerSecond := some k })]
    handlers := [], nextId := 0, events := [] }

-- ── Concrete states used by counterexamples and witnesses ────────────────

/-- A scheduler with bound 1 after enqueueing one job; the job is
admitted immediately and is running. -/
def sched1 : SchedState := applyOps (initSched 1) [SchedOp.enq "a" "t"]

/-- `sched1` after `cancel(0)`: job 0 was running, so it is only marked
cancelled. -/
def schedCancelled : SchedState := applyOp sched1 (SchedOp.cancelOp 0)

/-- `sched1` after `cancelAll()`. -/
def schedAllCancelled : SchedState := applyOp sched1 SchedOp.cancelAllOp

/-- A scheduler whose single job ran to successful completion. -/
def schedDone : SchedState :=
  applyOps (initSched 1) [SchedOp.enq "a" "t", SchedOp.completeOp 0 Outcome.success]

/-- A claim graph in which the single claim challenges itself:
`addClaim("A")` followed by `challengeClaim(0, 0)`. -/
def graphSelfChallenge : ClaimGraphState :=
  challengeClaim (addClaim emptyGraph "A" "alice" [] (1/2)) 0 0

/-- An enforcer in which agent `"a"` has accumulated 10 tokens of
usage. -/
def enfAfterUse : PolicyEnforcerState :=
  addTokenUsage (registerAgent { budgets := [] } "a" {}) "a" 10

/-- A run whose validation phase throws. -/
def envValidateFail : RunEnv :=
  { validateErr := some "boom", connectErr := none, describeErr := none
    executeErr := none, graph := emptyGraph, allJobs := [] }

/-- A run in which no phase throws. -/
def envOk : RunEnv :=
  { validateErr := none, connectErr := none, describeErr := none
    executeErr := none, graph := emptyGraph, allJobs := [] }

/-- The successful result of `runModel envOk`. -/
def resOk : ExecutionResult :=
  { status := "completed", claims := (summarize emptyGraph).claims
    consensus := String.intercalate "; " (summarize emptyGraph).consensus
    conflicts := (summarize emptyGraph).conflicts, jobResults := [] }

-- ══ Generic helper lemmas ════════════════════════════════════════════════

theorem find?_map_pred {α : Type} {f : α → α} {p : α → Bool} (hp : ∀ a, p (f a) = p a) :
    ∀ l : List α, (l.map f).find? p = (l.find? p).map f
  | [] => rfl
  | a :: t => by
    by_cases h : p a = true
    · rw [List.map_cons, List.find?_cons_of_pos _ (by rw [hp]; exact h),
        List.find?_cons_of_pos _ h]
      rfl
    · rw [List.map_cons, List.find?_cons_of_neg _ (by rw [hp]; exact h),
        List.find?_cons_of_neg _ h]
      exact find?_map_pred hp t

theorem alookup_mapSet_self {α : Type} (l : List (String × α)) (name : String) (a : α) :
    alookup (mapSet l name a) name = some a := by
  unfold mapSet alookup
  by_cases h : (List.find? (fun p => p.1 = name) l).isSome = true
  · rw [if_pos h]
    have hkey : ∀ p : String × α,
        decide ((if p.1 = name then (name, a) else p).1 = name) = decide (p.1 = name) := by
      intro p
      by_cases hp : p.1 = name <;> simp [hp]
    rw [find?_map_pred hkey]
    obtain ⟨pair, hpair⟩ := Option.isSome_iff_exists.mp h
    have hp1 : pair.1 = name := by simpa using List.find?_some hpair
    rw [hpair]
    simp [hp1]
  · rw [if_neg h, List.find?_append, Option.not_isSome_iff_eq_none.mp h]
    simp [List.find?]

theorem alookup_mapSet_ne {α : Type} (l : List (String × α)) (name other : String)
    (a : α) (h : other ≠ name) :
    alookup (mapSet l name a) other = alookup l other := by
  unfold mapSet alookup
  by_cases hs : (List.find? (fun p => p.1 = name) l).isSome = true
  · rw [if_pos hs]
    have hkey : ∀ p : String × α,
        decide ((if p.1 = name then (name, a) else p).1 = other) = decide (p.1 = other) := by
      intro p
      by_cases hp : p.1 = name <;> simp [hp]
    rw [find?_map_pred hkey]
    cases hfind : List.find? (fun p => p.1 = other) l with
    | none => simp
    | some pair =>
      have hp1 : pair.1 = other := by simpa using List.find?_some hfind
      have hne : ¬pair.1 = name := by rw [hp1]; exact h
      simp [hne]
  · rw [if_neg hs, List.find?_append]
    have hsingle : List.find? (fun p => p.1 = other) [(name, a)] = none := by
      rw [List.find?_cons_of_neg _ (by simpa using Ne.symm h)]
      rfl
    rw [hsingle]
    cases List.find? (fun p => p.1 = other) l <;> simp

theorem foldl_append_mem {α β : Type} (f : α → List β) (b : β) :
    ∀ (L : List α) (acc : List β),
      (b ∈ L.foldl (fun acc a => acc ++ f a) acc ↔ b ∈ acc ∨ ∃ a ∈ L, b ∈ f a)
  | [], acc => by simp
  | x :: t, acc => by
    rw [List.foldl_cons, foldl_append_mem f b t (acc ++ f x)]
    simp only [List.mem_append, List.mem_cons, exists_eq_or_imp, or_assoc]

-- ══ C8: budget check ═════════════════════════════════════════════════════

/-- C8: `checkBudget(name)` throws (returns `some`) exactly when some
configured limit of the unit's policy is at/below the corresponding
accumulated counter; with no limit configured (or the unit unregistered)
it throws nothing.  The check is a pure read of the enforcer state. -/
theorem checkBudget_throws_iff (st : PolicyEnforcerState) (name : String) :
    (checkBudget st name).isSome = true ↔
      ∃ b, lookupBudget st name = some b ∧
        ((∃ m, b.policy.maxTokens = some m ∧ m ≤ b.tokensUsed) ∨
         (∃ m, b.policy.maxCost = some m ∧ m ≤ b.costUsed)) := by
  unfold checkBudget
  cases hb : lookupBudget st name with
  | none => simp
  | some b =>
    cases ht : b.policy.maxTokens with
    | none =>
      cases hc : b.policy.maxCost with
      | none => simp [checkTokenLimit, checkCostLimit, ht, hc]
      | some mc =>
        by_cases hm : mc ≤ b.costUsed <;>
          simp [checkTokenLimit, checkCostLimit, ht, hc, hm]
    | some mt =>
      by_cases hm : mt ≤ b.tokensUsed
      · simp [checkTokenLimit, ht, hm]
      · cases hc : b.policy.maxCost with
        | none => simp [checkTokenLimit, checkCostLimit, ht, hc, hm]
        | some mc =>
          by_cases hm2 : mc ≤ b.costUsed <;>
            simp [checkTokenLimit, checkCostLimit, ht, hc, hm, hm2]

-- ══ C7: budget counters and spawnAgent registration ══════════════════════

/-- C7 counterexample: agent `"a"` is already known (the registry is
unchanged by the spawn), yet its accumulated token counter is reset from
10 to 0 because `spawnAgent` calls `registerAgent` unconditionally. -/
theorem spawnAgent_resets_counters :
    tokensOf enfAfterUse "a" = 10 ∧
    (spawnAgentRegister ["a"] enfAfterUse "a" {}).1 = ["a"] ∧
    tokensOf (spawnAgentRegister ["a"] enfAfterUse "a" {}).2 "a" = 0 := by decide

/-- C7 (amended): usage counters are monotone under
`addTokenUsage`/`addCostUsage` (for nonnegative cost amounts) and are
removed by `clear()`; `spawnAgent` skips the unit-definition registration
when the name is already known, but always re-registers the budget
policy, resetting the unit's counters to zero. -/
theorem budget_counters_monotone (st : PolicyEnforcerState) (registry : List String)
    (name other : String) (tokens : Nat) (cost : ℚ) (policy : Policy)
    (hc : 0 ≤ cost) :
    tokensOf st other ≤ tokensOf (addTokenUsage st name tokens) other ∧
    costOf st other ≤ costOf (addCostUsage st name cost) other ∧
    (name ∈ registry → (spawnAgentRegister registry st name policy).1 = registry) ∧
    lookupBudget (spawnAgentRegister registry st name policy).2 name =
      some { policy := policy, tokensUsed := 0, costUsed := 0 } ∧
    lookupBudget (clearEnforcer st) name = none := by
  refine ⟨?_, ?_, ?_, ?_, rfl⟩
  · unfold tokensOf lookupBudget addTokenUsage alookup
    have hkey : ∀ p : String × AgentBudget,
        decide ((if p.1 = name then (p.1, { p.2 with tokensUsed := p.2.tokensUsed + tokens })
          else p).1 = other) = decide (p.1 = other) := by
      intro p
      by_cases hp : p.1 = name <;> simp [hp]
    rw [find?_map_pred hkey]
    cases hfind : List.find? (fun p => p.1 = other) st.budgets with
    | none => simp
    | some pair =>
      by_cases hp : pair.1 = name <;> simp [hp, Nat.le_add_right]
  · unfold costOf lookupBudget addCostUsage alookup
    have hkey : ∀ p : String × AgentBudget,
        decide ((if p.1 = name then (p.1, { p.2 with costUsed := p.2.costUsed + cost })
          else p).1 = other) = decide (p.1 = other) := by
      intro p
      by_cases hp : p.1 = name <;> simp [hp]
    rw [find?_map_pred hkey]
    cases hfind : List.find? (fun p => p.1 = other) st.budgets with
    | none => simp
    | some pair =>
      by_cases hp : pair.1 = name
      · simp only [hp, if_pos, Option.map_some', Option.getD_some]
        exact le_add_of_nonneg_right hc
      · simp [hp]
  · intro hmem
    unfold spawnAgentRegister
    simp [hmem]
  · unfold spawnAgentRegister registerAgent lookupBudget
    exact alookup_mapSet_self ..

/-- Witness for C7 (amended) at a concrete enforcer state. -/
theorem budget_counters_monotone_witness :
    tokensOf enfAfterUse "a" ≤ tokensOf (addTokenUsage enfAfterUse "a" 5) "a" ∧
    costOf enfAfterUse "a" ≤ costOf (addCostUsage enfAfterUse "a" 0) "a" :=
  ⟨(budget_counters_monotone enfAfterUse ["a"] "a" "a" 5 0 {} (le_refl 0)).1,
   (budget_counters_monotone enfAfterUse ["a"] "a" "a" 5 0 {} (le_refl 0)).2.1⟩

-- ══ C4: the finalize phase of run() ══════════════════════════════════════

/-- C4 counterexample: when validation throws, `run()` rejects without
ever computing the claim-graph summary — only cleanup still runs. -/
theorem run_skips_summary_on_failure :
    (runModel envValidateFail).1 = Except.error "boom" ∧
    RunPhase.finalizeSummary ∉ (runModel envValidateFail).2 ∧
    RunPhase.cleanupPhase ∈ (runModel envValidateFail).2 :=
  ⟨rfl, by decide, by decide⟩

/-- C4 (amended): the finalize phase (claim-graph summary and collection
of every job ever created) runs exactly on the success path of `run()`,
and then the result carries the summary fields and the all-time job log;
cleanup runs unconditionally, also when an earlier phase throws. -/
theorem run_finalize_iff (env : RunEnv) :
    RunPhase.cleanupPhase ∈ (runModel env).2 ∧
    (RunPhase.finalizeSummary ∈ (runModel env).2 ↔ (runModel env).1.isOk = true) ∧
    (RunPhase.collectJobs ∈ (runModel env).2 ↔ (runModel env).1.isOk = true) ∧
    (∀ r, (runModel env).1 = Except.ok r →
      r.jobResults = env.allJobs ∧ r.claims = (summarize env.graph).claims ∧
      r.conflicts = (summarize env.graph).conflicts ∧
      r.consensus = String.intercalate "; " (summarize env.graph).consensus ∧
      r.status = "completed") := by
  rcases env with ⟨ve, ce, de, ee, gr, aj⟩
  cases ve with
  | some e => simp [runModel, Except.isOk, Except.toBool]
  | none =>
  cases ce with
  | some e => simp [runModel, Except.isOk, Except.toBool]
  | none =>
  cases de with
  | some e => simp [runModel, Except.isOk, Except.toBool]
  | none =>
  cases ee with
  | some e => simp [runModel, Except.isOk, Except.toBool]
  | none =>
    refine ⟨by simp [runModel], by simp [runModel, Except.isOk, Except.toBool],
      by simp [runModel, Except.isOk, Except.toBool], ?_⟩
    intro r hr
    simp only [runModel] at hr
    injection hr with hr
    subst hr
    exact ⟨rfl, rfl, rfl, rfl, rfl⟩

/-- Witness for C4 (amended): a run with no failing phase. -/
theorem run_finalize_iff_witness :
    RunPhase.cleanupPhase ∈ (runModel envOk).2 ∧ resOk.jobResults = envOk.allJobs :=
  ⟨(run_finalize_iff envOk).1, ((run_finalize_iff envOk).2.2.2 resOk rfl).1⟩

-- ══ C10: cancel of an unknown/finished job ═══════════════════════════════

/-- C10: for a job id that is neither in the pending queue nor in the
running set, `cancel` returns `false` and the whole scheduler state —
statuses, events, settled promises — is unchanged. -/
theorem cancel_unknown_returns_false (s : SchedState) (j : Nat)
    (hq : j ∉ s.queue) (hr : j ∉ s.running) :
    cancel s j = (false, s) := by
  unfold cancel
  rw [if_neg hq, if_neg hr]

/-- Witness for C10: id 5 is unknown to `sched1`. -/
theorem cancel_unknown_returns_false_witness : cancel sched1 5 = (false, sched1) :=
  cancel_unknown_returns_false sched1 5 (by decide) (by decide)

-- ══ C6: confidence clamping ══════════════════════════════════════════════

theorem confInRange_addLink {g g1 : ClaimGraphState} {t src : Nat} {ty : ClaimLinkType}
    (h : addLink g t src ty = some g1) (hg : ConfInRange g) : ConfInRange g1 := by
  unfold addLink at h
  cases ht : getClaim g t with
  | none => rw [ht] at h; simp at h
  | some ct =>
    cases hs : getClaim g src with
    | none => rw [ht, hs] at h; simp at h
    | some cs =>
      rw [ht, hs] at h
      simp only [Option.some.injEq] at h
      subst h
      intro c hc
      simp only [List.mem_map] at hc
      obtain ⟨d, hd, rfl⟩ := hc
      by_cases hid : d.id = src <;> simp [hid] <;> exact hg d hd

theorem confInRange_applyClaimOp (g : ClaimGraphState) (op : ClaimOp)
    (hg : ConfInRange g)
    (hop : match op with
      | ClaimOp.add _ _ _ conf => 0 ≤ conf ∧ conf ≤ 1
      | _ => True) :
    ConfInRange (applyClaimOp g op) := by
  cases op with
  | add stm au ev conf =>
    intro c hc
    simp only [applyClaimOp, addClaim, List.mem_append, List.mem_singleton] at hc
    rcases hc with hc | hc
    · exact hg c hc
    · subst hc; exact hop
  | challenge t src =>
    simp only [applyClaimOp, challengeClaim]
    cases hl : addLink g t src ClaimLinkType.challenges with
    | none => exact hg
    | some g1 =>
      have hg1 : ConfInRange g1 := confInRange_addLink hl hg
      intro c hc
      simp only [adjustConfidence, List.mem_map] at hc
      obtain ⟨d, hd, rfl⟩ := hc
      obtain ⟨h0, h1⟩ := hg1 d hd
      by_cases hid : d.id = t
      · simp only [if_pos hid]
        exact ⟨le_max_left 0 _, max_le (by norm_num) (by linarith)⟩
      · simp only [if_neg hid]
        exact ⟨h0, h1⟩
  | support t src =>
    simp only [applyClaimOp, supportClaim]
    cases hl : addLink g t src ClaimLinkType.supports with
    | none => exact hg
    | some g1 =>
      have hg1 : ConfInRange g1 := confInRange_addLink hl hg
      intro c hc
      simp only [adjustConfidence, List.mem_map] at hc
      obtain ⟨d, hd, rfl⟩ := hc
      obtain ⟨h0, h1⟩ := hg1 d hd
      by_cases hid : d.id = t
      · simp only [if_pos hid]
        exact ⟨le_min (by norm_num) (by linarith), min_le_left 1 _⟩
      · simp only [if_neg hid]
        exact ⟨h0, h1⟩

/-- C6: starting from any graph whose confidences lie in `[0, 1]`, any
sequence of add/challenge/support operations (adds supplying an in-range
initial confidence, as the data model requires) keeps every claim's
confidence within `[0, 1]`: the ∓0.1 adjustments are clamped. -/
theorem confidence_stays_in_range (g : ClaimGraphState) (ops : List ClaimOp)
    (hg : ConfInRange g) (hops : RangedAdds ops) :
    ConfInRange (applyClaimOps g ops) := by
  induction ops generalizing g with
  | nil => exact hg
  | cons op rest ih =>
    simp only [applyClaimOps, List.foldl_cons] at *
    exact ih (applyClaimOp g op)
      (confInRange_applyClaimOp g op hg (hops op (List.mem_cons_self op rest)))
      (fun o ho => hops o (List.mem_cons_of_mem op ho))

/-- Witness for C6: a self-challenge on the empty graph. -/
theorem confidence_stays_in_range_witness :
    ConfInRange (applyClaimOps emptyGraph [ClaimOp.challenge 0 0]) :=
  confidence_stays_in_range emptyGraph [ClaimOp.challenge 0 0]
    (by intro c hc; simp [emptyGraph] at hc)
    (by intro op hop; simp only [List.mem_singleton] at hop; subst hop; trivial)

-- ══ C5: summarize membership ═════════════════════════════════════════════

theorem mem_challengedIds (g : ClaimGraphState) (j : Nat) :
    j ∈ challengedIds g ↔ isChallenged g j := by
  unfold challengedIds isChallenged
  rw [foldl_append_mem]
  simp only [List.not_mem_nil, false_or, List.mem_map, List.mem_filter,
    decide_eq_true_eq]
  constructor
  · rintro ⟨c, hc, l, ⟨hl, hty⟩, htgt⟩
    exact ⟨c, hc, l, hl, hty, htgt⟩
  · rintro ⟨c, hc, l, hl, hty, htgt⟩
    exact ⟨c, hc, l, ⟨hl, hty⟩, htgt⟩

/-- C5 counterexample: in `graphSelfChallenge` the only claim is claim 0
(statement `"A"`), yet `"A"` is listed in `conflicts` — so a claim can be
in `conflicts` without any *other* claim challenging it (the challenge
link comes from the claim itself). -/
theorem conflicts_includes_self_challenge :
    graphSelfChallenge.claims.map (fun c => c.id) = [0] ∧
    (getClaim graphSelfChallenge 0).map (fun c => c.statement) = some "A" ∧
    "A" ∈ (summarize graphSelfChallenge).conflicts := by decide

/-- C5 (amended): a statement is listed in `conflicts` iff some claim —
possibly the target claim itself — carries a `challenges` link to it; it
is listed in `consensus` iff it belongs to a claim with confidence ≥ 0.7
that no `challenges` link targets; and when statements are pairwise
distinct no statement appears in both lists. -/
theorem summarize_membership (g : ClaimGraphState) :
    (∀ stmt, stmt ∈ (summarize g).conflicts ↔
      ∃ c ∈ g.claims, c.statement = stmt ∧ isChallenged g c.id) ∧
    (∀ stmt, stmt ∈ (summarize g).consensus ↔
      ∃ c ∈ g.claims, c.statement = stmt ∧ (7 : ℚ)/10 ≤ c.confidence ∧
        ¬isChallenged g c.id) ∧
    ((g.claims.map (fun c => c.statement)).Nodup →
      ∀ stmt, ¬(stmt ∈ (summarize g).consensus ∧ stmt ∈ (summarize g).conflicts)) := by
  have hconf : ∀ stmt, stmt ∈ (summarize g).conflicts ↔
      ∃ c ∈ g.claims, c.statement = stmt ∧ isChallenged g c.id := by
    intro stmt
    simp only [summarize, List.mem_map, List.mem_filter, decide_eq_true_eq,
      mem_challengedIds]
    constructor
    · rintro ⟨c, ⟨hc, hch⟩, hst⟩
      exact ⟨c, hc, hst, hch⟩
    · rintro ⟨c, hc, hst, hch⟩
      exact ⟨c, ⟨hc, hch⟩, hst⟩
  have hcons : ∀ stmt, stmt ∈ (summarize g).consensus ↔
      ∃ c ∈ g.claims, c.statement = stmt ∧ (7 : ℚ)/10 ≤ c.confidence ∧
        ¬isChallenged g c.id := by
    intro stmt
    simp only [summarize, List.mem_map, List.mem_filter, Bool.and_eq_true,
      decide_eq_true_eq, mem_challengedIds]
    constructor
    · rintro ⟨c, ⟨hc, hge, hch⟩, hst⟩
      exact ⟨c, hc, hst, hge, hch⟩
    · rintro ⟨c, hc, hst, hge, hch⟩
      exact ⟨c, ⟨hc, hge, hch⟩, hst⟩
  refine ⟨hconf, hcons, ?_⟩
  intro hnd stmt ⟨hin1, hin2⟩
  obtain ⟨c1, hc1, hst1, _, hnch⟩ := (hcons stmt).mp hin1
  obtain ⟨c2, hc2, hst2, hch⟩ := (hconf stmt).mp hin2
  have : c1 = c2 :=
    List.inj_on_of_nodup_map hnd hc1 hc2 (by rw [hst1, hst2])
  subst this
  exact hnch hch

/-- Witness for C5 (amended): applied to the self-challenge graph, whose
statements are pairwise distinct. -/
theorem summarize_membership_witness :
    ¬("A" ∈ (summarize graphSelfChallenge).consensus ∧
      "A" ∈ (summarize graphSelfChallenge).conflicts) :=
  (summarize_membership graphSelfChallenge).2.2 (by decide) "A"

-- ══ C9: sliding-window rate limiting ═════════════════════════════════════

theorem countRecent_append (l1 l2 : List Nat) (now : Nat) :
    countRecent (l1 ++ l2) now = countRecent l1 now + countRecent l2 now := by
  unfold countRecent
  rw [List.filter_append, List.length_append]

theorem countRecent_prune (l : List Nat) (t0 now : Nat) (h : t0 ≤ now) :
    countRecent (l.filter (fun t => t0 - t < 2000)) now = countRecent l now := by
  unfold countRecent
  rw [List.filter_filter]
  apply congrArg
  apply List.filter_congr
  intro x _
  by_cases h1 : now - x < 1000
  · have h2 : t0 - x < 2000 := by omega
    simp [h1, h2]
  · simp [h1]

theorem successTimes_cons (a : Nat) (f : Bool) (ts : List Nat) (fs : List Bool) :
    successTimes (a :: ts) (f :: fs) =
      (if f then [a] else []) ++ successTimes ts fs := by
  unfold successTimes
  rw [List.zip_cons_cons]
  cases f <;> simp [List.filter]

theorem timestampsOf_recordSend_self (st : RouterState) (name : String) (now : Nat) :
    timestampsOf (recordSend st name now) name =
      (timestampsOf st name).filter (fun t => now - t < 2000) ++ [now] := by
  unfold recordSend timestampsOf
  rw [alookup_mapSet_self]
  rfl

theorem checkRateLimit_none_iff (st : RouterState) (sender : String) (now k : Nat)
    (hpol : (policyOf st sender).bind (fun p => p.maxMessagesPerSecond) = some k) :
    (checkRateLimit st sender now = none ↔
      countRecent (timestampsOf st sender) now < k) := by
  unfold checkRateLimit
  rw [hpol]
  show (if k ≤ countRecent (timestampsOf st sender) now then
      some "Rate limit exceeded" else none) = none ↔ _
  by_cases h : k ≤ countRecent (timestampsOf st sender) now
  · rw [if_pos h]
    simp
    omega
  · rw [if_neg h]
    simp
    omega

theorem sendMessage_ok_state (st : RouterState) (sender recipient payload : String)
    (now : Nat) (hok : checkRateLimit st sender now = none) :
    ∃ m st', sendMessage st sender recipient payload now = Except.ok (m, st') ∧
      st'.sendTimestamps = (recordSend st sender now).sendTimestamps ∧
      st'.policies = st.policies := by
  unfold sendMessage
  rw [hok]
  refine ⟨_, _, rfl, ?_, ?_⟩ <;> split <;> rfl

theorem sendMessage_error_of_some (st : RouterState) (sender recipient payload : String)
    (now : Nat) (e : String) (hc : checkRateLimit st sender now = some e) :
    sendMessage st sender recipient payload now = Except.error e := by
  unfold sendMessage
  rw [hc]

theorem runSends_agree (sender recipient payload : String) (k : Nat) :
    ∀ (ts : List Nat) (st : RouterState) (succ : List Nat) (b : Nat),
    (policyOf st sender).bind (fun p => p.maxMessagesPerSecond) = some k →
    List.Pairwise (fun a c => a ≤ c) ts →
    (∀ t ∈ ts, b ≤ t) →
    (∀ now, b ≤ now → countRecent (timestampsOf st sender) now = countRecent succ now) →
    (policyOf (runSends st sender recipient payload ts).1 sender).bind
        (fun p => p.maxMessagesPerSecond) = some k ∧
    (∀ now, (∀ t ∈ ts, t ≤ now) → b ≤ now →
      countRecent (timestampsOf (runSends st sender recipient payload ts).1 sender) now =
        countRecent (succ ++ successTimes ts (runSends st sender recipient payload ts).2)
          now) := by
  intro ts
  induction ts with
  | nil =>
    intro st succ b hpol _ _ hagree
    refine ⟨hpol, ?_⟩
    intro now _ hb
    simpa [runSends, successTimes] using hagree now hb
  | cons t0 rest ih =>
    intro st succ b hpol hsort hb hagree
    have hb0 : b ≤ t0 := hb t0 (List.mem_cons_self t0 rest)
    have hrest_lb : ∀ t ∈ rest, t0 ≤ t := (List.pairwise_cons.mp hsort).1
    have hrest_sort : List.Pairwise (fun a c => a ≤ c) rest := hsort.of_cons
    by_cases hok : checkRateLimit st sender t0 = none
    · obtain ⟨m, st', hsend, hts, hpols⟩ :=
        sendMessage_ok_state st sender recipient payload t0 hok
      have hts' : timestampsOf st' sender =
          (timestampsOf st sender).filter (fun t => t0 - t < 2000) ++ [t0] := by
        have : timestampsOf st' sender = timestampsOf (recordSend st sender t0) sender := by
          unfold timestampsOf
          rw [hts]
        rw [this, timestampsOf_recordSend_self]
      have hpol' : (policyOf st' sender).bind (fun p => p.maxMessagesPerSecond) = some k := by
        have : policyOf st' sender = policyOf st sender := by
          unfold policyOf
          rw [hpols]
        rw [this]
        exact hpol
      have hagree' : ∀ now, t0 ≤ now →
          countRecent (timestampsOf st' sender) now = countRecent (succ ++ [t0]) now := by
        intro now hnow
        rw [hts', countRecent_append, countRecent_prune _ _ _ hnow,
          hagree now (le_trans hb0 hnow), countRecent_append]
      obtain ⟨hpf, hagf⟩ := ih st' (succ ++ [t0]) t0 hpol' hrest_sort hrest_lb hagree'
      have hred : runSends st sender recipient payload (t0 :: rest) =
          ((runSends st' sender recipient payload rest).1,
            true :: (runSends st' sender recipient payload rest).2) := by
        simp only [runSends, hsend]
      rw [hred]
      refine ⟨hpf, ?_⟩
      intro now hall hbn
      have ht0n : t0 ≤ now := hall t0 (List.mem_cons_self t0 rest)
      have := hagf now (fun t ht => hall t (List.mem_cons_of_mem t0 ht)) ht0n
      rw [this, successTimes_cons]
      simp [List.append_assoc]
    · obtain ⟨e, he⟩ := Option.ne_none_iff_exists.mp hok
      have hsend := sendMessage_error_of_some st sender recipient payload t0 e he.symm
      have hagree' : ∀ now, t0 ≤ now →
          countRecent (timestampsOf st sender) now = countRecent succ now := by
        intro now hnow
        exact hagree now (le_trans hb0 hnow)
      obtain ⟨hpf, hagf⟩ := ih st succ t0 hpol hrest_sort hrest_lb hagree'
      have hred : runSends st sender recipient payload (t0 :: rest) =
          ((runSends st sender recipient payload rest).1,
            false :: (runSends st sender recipient payload rest).2) := by
        simp only [runSends, hsend]
      rw [hred]
      refine ⟨hpf, ?_⟩
      intro now hall hbn
      have ht0n : t0 ≤ now := hall t0 (List.mem_cons_self t0 rest)
      have := hagf now (fun t ht => hall t (List.mem_cons_of_mem t0 ht)) ht0n
      rw [this, successTimes_cons]
      simp

theorem policyOf_mkRouter (sender : String) (k : Nat) :
    (policyOf (mkRouter sender k) sender).bind (fun p => p.maxMessagesPerSecond) =
      some k := by
  simp [policyOf, mkRouter, alookup, List.find?]

theorem timestampsOf_mkRouter (sender : String) (k : Nat) :
    timestampsOf (mkRouter sender k) sender = [] := rfl

theorem runSends_replicate_aux (sender recipient payload : String) (k t : Nat) :
    ∀ (j i : Nat) (st : RouterState),
    (policyOf st sender).bind (fun p => p.maxMessagesPerSecond) = some k →
    timestampsOf st sender = List.replicate i t →
    i + j ≤ k →
    (runSends st sender recipient payload (List.replicate j t)).2 = List.replicate j true ∧
    timestampsOf (runSends st sender recipient payload (List.replicate j t)).1 sender =
      List.replicate (i + j) t ∧
    (policyOf (runSends st sender recipient payload (List.replicate j t)).1 sender).bind
      (fun p => p.maxMessagesPerSecond) = some k := by
  intro j
  induction j with
  | zero =>
    intro i st hpol hts _
    exact ⟨rfl, by simpa [runSends] using hts, hpol⟩
  | succ j ih =>
    intro i st hpol hts hik
    have hcount : countRecent (timestampsOf st sender) t = i := by
      rw [hts]
      unfold countRecent
      rw [List.filter_replicate]
      simp
    have hok : checkRateLimit st sender t = none := by
      rw [checkRateLimit_none_iff st sender t k hpol, hcount]
      omega
    obtain ⟨m, st', hsend, hts2, hpols⟩ :=
      sendMessage_ok_state st sender recipient payload t hok
    have hts' : timestampsOf st' sender = List.replicate (i + 1) t := by
      have h1 : timestampsOf st' sender = timestampsOf (recordSend st sender t) sender := by
        unfold timestampsOf
        rw [hts2]
      rw [h1, timestampsOf_recordSend_self, hts, List.filter_replicate]
      simp [List.replicate_succ']
    have hpol' : (policyOf st' sender).bind (fun p => p.maxMessagesPerSecond) = some k := by
      have : policyOf st' sender = policyOf st sender := by
        unfold policyOf
        rw [hpols]
      rw [this]
      exact hpol
    obtain ⟨hf, htsf, hpf⟩ := ih (i + 1) st' hpol' hts' (by omega)
    have hred : runSends st sender recipient payload (List.replicate (j + 1) t) =
        ((runSends st' sender recipient payload (List.replicate j t)).1,
          true :: (runSends st' sender recipient payload (List.replicate j t)).2) := by
      rw [List.replicate_succ]
      simp only [runSends, hsend]
    rw [hred]
    refine ⟨?_, ?_, hpf⟩
    · rw [List.replicate_succ]
      simpa using hf
    · simpa [Nat.add_assoc, Nat.add_comm 1 j] using htsf

theorem runSends_append (st : RouterState) (sender recipient payload : String)
    (ts1 ts2 : List Nat) :
    runSends st sender recipient payload (ts1 ++ ts2) =
      ((runSends (runSends st sender recipient payload ts1).1
          sender recipient payload ts2).1,
       (runSends st sender recipient payload ts1).2 ++
         (runSends (runSends st sender recipient payload ts1).1
           sender recipient payload ts2).2) := by
  induction ts1 generalizing st with
  | nil => simp [runSends]
  | cons a t ih =>
    rw [List.cons_append]
    cases hsend : sendMessage st sender recipient payload a with
    | ok pr => simp only [runSends, hsend, ih pr.2, List.cons_append]
    | error e => simp only [runSends, hsend, ih st, List.cons_append]

/-- C9: with `maxMessagesPerSecond = k ≥ 1` configured for a unit, (a)
after any nondecreasing sequence of send attempts from a fresh router,
the next attempt at time `τ` succeeds iff fewer than `k` earlier attempts
succeeded within the trailing 1000 ms window of `τ` — so exactly `k`
sends can succeed in any trailing window and the next one inside the
window throws; and (b) concretely, of `k + 1` immediate sends the first
`k` succeed and the last throws, while a further send after the window
has passed (at `t + 1000`) succeeds again. -/
theorem rate_limit_trailing_window (sender recipient payload : String) (k : Nat)
    (hk : 1 ≤ k) (ts : List Nat) (tau t : Nat)
    (hsorted : List.Pairwise (fun a c => a ≤ c) (ts ++ [tau])) :
    ((sendMessage (runSends (mkRouter sender k) sender recipient payload ts).1
        sender recipient payload tau).isOk = true ↔
      countRecent
        (successTimes ts (runSends (mkRouter sender k) sender recipient payload ts).2)
        tau < k) ∧
    (runSends (mkRouter sender k) sender recipient payload
        (List.replicate (k + 1) t ++ [t + 1000])).2 =
      List.replicate k true ++ [false, true] := by
  constructor
  · obtain ⟨hsts, _, hlast⟩ := List.pairwise_append.mp hsorted
    have hle_tau : ∀ x ∈ ts, x ≤ tau := fun x hx =>
      hlast x hx tau (List.mem_singleton.mpr rfl)
    obtain ⟨hpf, hagf⟩ := runSends_agree sender recipient payload k ts
      (mkRouter sender k) [] 0 (policyOf_mkRouter sender k) hsts
      (fun x _ => Nat.zero_le x)
      (fun now _ => by rw [timestampsOf_mkRouter])
    have hcount := hagf tau hle_tau (Nat.zero_le tau)
    rw [List.nil_append] at hcount
    have hiff := checkRateLimit_none_iff
      (runSends (mkRouter sender k) sender recipient payload ts).1 sender tau k hpf
    rw [hcount] at hiff
    by_cases hc : checkRateLimit
        (runSends (mkRouter sender k) sender recipient payload ts).1 sender tau = none
    · obtain ⟨m, st', hsend, _, _⟩ := sendMessage_ok_state _ sender recipient payload tau hc
      rw [hsend]
      simpa [Except.isOk, Except.toBool] using hiff.mp hc
    · obtain ⟨e, he⟩ := Option.ne_none_iff_exists.mp hc
      rw [sendMessage_error_of_some _ sender recipient payload tau e he.symm]
      simp only [Except.isOk, Except.toBool, Bool.false_eq_true, false_iff]
      intro hlt
      exact hc (hiff.mpr hlt)
  · obtain ⟨hflags, hts, hpol⟩ := runSends_replicate_aux sender recipient payload k t
      k 0 (mkRouter sender k) (policyOf_mkRouter sender k)
      (timestampsOf_mkRouter sender k) (by omega)
    rw [Nat.zero_add] at hts
    have hrep : List.replicate (k + 1) t = List.replicate k t ++ [t] :=
      List.replicate_succ' k t
    have hcountk : countRecent
        (timestampsOf (runSends (mkRouter sender k) sender recipient payload
          (List.replicate k t)).1 sender) t = k := by
      rw [hts]
      unfold countRecent
      rw [List.filter_replicate]
      simp
    have hfail : checkRateLimit (runSends (mkRouter sender k) sender recipient payload
        (List.replicate k t)).1 sender t ≠ none := by
      intro hcon
      rw [checkRateLimit_none_iff _ sender t k hpol, hcountk] at hcon
      omega
    obtain ⟨e, he⟩ := Option.ne_none_iff_exists.mp hfail
    have hsendfail := sendMessage_error_of_some
      (runSends (mkRouter sender k) sender recipient payload (List.replicate k t)).1
      sender recipient payload t e he.symm
    -- after the failed send the state is unchanged, so the send at
    -- t + 1000 sees k timestamps all exactly 1000 ms old
    have hcount1000 : countRecent
        (timestampsOf (runSends (mkRouter sender k) sender recipient payload
          (List.replicate k t)).1 sender) (t + 1000) = 0 := by
      rw [hts]
      unfold countRecent
      rw [List.filter_replicate]
      simp
    have hok1000 : checkRateLimit (runSends (mkRouter sender k) sender recipient payload
        (List.replicate k t)).1 sender (t + 1000) = none := by
      rw [checkRateLimit_none_iff _ sender (t + 1000) k hpol, hcount1000]
      omega
    obtain ⟨m, st', hsendok, _, _⟩ := sendMessage_ok_state
      (runSends (mkRouter sender k) sender recipient payload (List.replicate k t)).1
      sender recipient payload (t + 1000) hok1000
    rw [hrep, List.append_assoc, runSends_append, hflags]
    have hred : runSends (runSends (mkRouter sender k) sender recipient payload
        (List.replicate k t)).1 sender recipient payload ([t] ++ [t + 1000]) =
        ((runSends st' sender recipient payload []).1,
          false :: true :: (runSends st' sender recipient payload []).2) := by
      show runSends _ sender recipient payload (t :: (t + 1000) :: []) = _
      simp only [runSends, hsendfail, hsendok]
    rw [hred]
    simp [runSends]

/-- Witness for C9 at `k = 2`: two immediate sends succeed, a third one
inside the window throws, and a send after the window succeeds. -/
theorem rate_limit_trailing_window_witness :
    (runSends (mkRouter "s" 2) "s" "r" "p"
        (List.replicate 3 5 ++ [5 + 1000])).2 =
      List.replicate 2 true ++ [false, true] :=
  (rate_limit_trailing_window "s" "r" "p" 2 (by decide) [] 0 5 (by decide)).2

-- ══ Scheduler: basic state lemmas ════════════════════════════════════════

theorem setStatus_keyPred (j k : Nat) (st : JobStatus) :
    ∀ job : Job,
      decide ((if job.id = j then { job with status := st } else job).id = k) =
        decide (job.id = k) := by
  intro job
  by_cases h : job.id = j <;> simp [h]

@[simp] theorem setStatus_queue (s : SchedState) (j : Nat) (st : JobStatus) :
    (setStatus s j st).queue = s.queue := rfl

@[simp] theorem setStatus_running (s : SchedState) (j : Nat) (st : JobStatus) :
    (setStatus s j st).running = s.running := rfl

@[simp] theorem setStatus_started (s : SchedState) (j : Nat) (st : JobStatus) :
    (setStatus s j st).started = s.started := rfl

@[simp] theorem setStatus_bodyDone (s : SchedState) (j : Nat) (st : JobStatus) :
    (setStatus s j st).bodyDone = s.bodyDone := rfl

@[simp] theorem setStatus_settled (s : SchedState) (j : Nat) (st : JobStatus) :
    (setStatus s j st).settled = s.settled := rfl

@[simp] theorem setStatus_events (s : SchedState) (j : Nat) (st : JobStatus) :
    (setStatus s j st).events = s.events := rfl

@[simp] theorem setStatus_maxParallel (s : SchedState) (j : Nat) (st : JobStatus) :
    (setStatus s j st).maxParallel = s.maxParallel := rfl

@[simp] theorem setStatus_paused (s : SchedState) (j : Nat) (st : JobStatus) :
    (setStatus s j st).paused = s.paused := rfl

@[simp] theorem setStatus_length (s : SchedState) (j : Nat) (st : JobStatus) :
    (setStatus s j st).allJobs.length = s.allJobs.length := by
  simp [setStatus]

@[simp] theorem jobIds_setStatus (s : SchedState) (j : Nat) (st : JobStatus) :
    jobIds (setStatus s j st) = jobIds s := by
  unfold jobIds setStatus
  simp only [List.map_map]
  apply List.map_congr_left
  intro job _
  by_cases h : job.id = j <;> simp [h]

@[simp] theorem addEvent_queue (s : SchedState) (e : SchedEvent) :
    (addEvent s e).queue = s.queue := rfl

@[simp] theorem addEvent_running (s : SchedState) (e : SchedEvent) :
    (addEvent s e).running = s.running := rfl

@[simp] theorem addEvent_started (s : SchedState) (e : SchedEvent) :
    (addEvent s e).started = s.started := rfl

@[simp] theorem addEvent_bodyDone (s : SchedState) (e : SchedEvent) :
    (addEvent s e).bodyDone = s.bodyDone := rfl

@[simp] theorem addEvent_settled (s : SchedState) (e : SchedEvent) :
    (addEvent s e).settled = s.settled := rfl

@[simp] theorem addEvent_allJobs (s : SchedState) (e : SchedEvent) :
    (addEvent s e).allJobs = s.allJobs := rfl

@[simp] theorem addEvent_maxParallel (s : SchedState) (e : SchedEvent) :
    (addEvent s e).maxParallel = s.maxParallel := rfl

@[simp] theorem addEvent_paused (s : SchedState) (e : SchedEvent) :
    (addEvent s e).paused = s.paused := rfl

@[simp] theorem getStatus_addEvent (s : SchedState) (e : SchedEvent) (j : Nat) :
    getStatus (addEvent s e) j = getStatus s j := rfl

@[simp] theorem lookupSettle_addEvent (s : SchedState) (e : SchedEvent) (j : Nat) :
    lookupSettle (addEvent s e) j = lookupSettle s j := rfl

@[simp] theorem lookupSettle_setStatus (s : SchedState) (j k : Nat) (st : JobStatus) :
    lookupSettle (setStatus s j st) k = lookupSettle s k := rfl

@[simp] theorem trySettle_queue (s : SchedState) (j : Nat) (r : SettleResult) :
    (trySettle s j r).queue = s.queue := by
  unfold trySettle
  split <;> rfl

@[simp] theorem trySettle_running (s : SchedState) (j : Nat) (r : SettleResult) :
    (trySettle s j r).running = s.running := by
  unfold trySettle
  split <;> rfl

@[simp] theorem trySettle_started (s : SchedState) (j : Nat) (r : SettleResult) :
    (trySettle s j r).started = s.started := by
  unfold trySettle
  split <;> rfl

@[simp] theorem trySettle_bodyDone (s : SchedState) (j : Nat) (r : SettleResult) :
    (trySettle s j r).bodyDone = s.bodyDone := by
  unfold trySettle
  split <;> rfl

@[simp] theorem trySettle_allJobs (s : SchedState) (j : Nat) (r : SettleResult) :
    (trySettle s j r).allJobs = s.allJobs := by
  unfold trySettle
  split <;> rfl

@[simp] theorem trySettle_maxParallel (s : SchedState) (j : Nat) (r : SettleResult) :
    (trySettle s j r).maxParallel = s.maxParallel := by
  unfold trySettle
  split <;> rfl

@[simp] theorem trySettle_paused (s : SchedState) (j : Nat) (r : SettleResult) :
    (trySettle s j r).paused = s.paused := by
  unfold trySettle
  split <;> rfl

@[simp] theorem getStatus_trySettle (s : SchedState) (j k : Nat) (r : SettleResult) :
    getStatus (trySettle s j r) k = getStatus s k := by
  unfold getStatus trySettle
  split <;> rfl

@[simp] theorem jobIds_trySettle (s : SchedState) (j : Nat) (r : SettleResult) :
    jobIds (trySettle s j r) = jobIds s := by
  unfold jobIds trySettle
  split <;> rfl

theorem getStatus_setStatus_ne (s : SchedState) (j k : Nat) (st : JobStatus)
    (h : k ≠ j) : getStatus (setStatus s j st) k = getStatus s k := by
  unfold getStatus setStatus
  rw [find?_map_pred (setStatus_keyPred j k st)]
  cases hf : s.allJobs.find? (fun job => job.id = k) with
  | none => rfl
  | some job =>
    have hid : job.id = k := by simpa using List.find?_some hf
    simp [hid, h]

theorem isSome_map {α β : Type} (f : α → β) (o : Option α) :
    (o.map f).isSome = o.isSome := by
  cases o <;> rfl

theorem getStatus_setStatus_self (s : SchedState) (j : Nat) (st : JobStatus)
    (hsome : (getStatus s j).isSome = true) :
    getStatus (setStatus s j st) j = some st := by
  unfold getStatus setStatus
  rw [find?_map_pred (setStatus_keyPred j j st)]
  unfold getStatus at hsome
  rw [isSome_map] at hsome
  obtain ⟨job, hf⟩ := Option.isSome_iff_exists.mp hsome
  have hid : job.id = j := by simpa using List.find?_some hf
  rw [hf]
  simp [hid]

theorem getStatus_isSome_setStatus (s : SchedState) (j k : Nat) (st : JobStatus) :
    (getStatus (setStatus s j st) k).isSome = (getStatus s k).isSome := by
  unfold getStatus setStatus
  rw [find?_map_pred (setStatus_keyPred j k st)]
  simp only [isSome_map]

theorem getStatus_isSome_iff (s : SchedState)
    (hids : jobIds s = List.range s.allJobs.length) (j : Nat) :
    (getStatus s j).isSome = true ↔ j < s.allJobs.length := by
  unfold getStatus
  rw [isSome_map]
  have h1 : (s.allJobs.find? (fun job => job.id = j)).isSome = true ↔
      ∃ job ∈ s.allJobs, job.id = j := by
    simp [List.find?_isSome]
  rw [h1]
  have h2 : (∃ job ∈ s.allJobs, job.id = j) ↔ j ∈ jobIds s := by
    unfold jobIds
    simp [List.mem_map, eq_comm]
  rw [h2, hids, List.mem_range]

theorem getStatus_some_elim (s : SchedState) (j : Nat) (st : JobStatus)
    (h : getStatus s j = some st) :
    ∃ job ∈ s.allJobs, job.id = j ∧ job.status = st := by
  unfold getStatus at h
  cases hf : s.allJobs.find? (fun job => job.id = j) with
  | none => rw [hf] at h; simp at h
  | some job =>
    rw [hf] at h
    have hid : job.id = j := by simpa using List.find?_some hf
    have hmem : job ∈ s.allJobs := List.mem_of_find?_eq_some hf
    refine ⟨job, hmem, hid, ?_⟩
    simp only [Option.map_some', Option.some.injEq] at h
    exact h

theorem lookupSettle_trySettle_ne (s : SchedState) (j k : Nat) (r : SettleResult)
    (h : k ≠ j) : lookupSettle (trySettle s j r) k = lookupSettle s k := by
  unfold trySettle
  cases hl : lookupSettle s j with
  | some _ => rfl
  | none =>
    show (List.find? (fun p => p.1 = k) (s.settled ++ [(j, r)])).map (fun p => p.2) =
      lookupSettle s k
    rw [List.find?_append]
    have hone : List.find? (fun p => p.1 = k) [(j, r)] = none := by
      rw [List.find?_cons_of_neg _ (by simpa using Ne.symm h)]
      rfl
    rw [hone]
    unfold lookupSettle
    cases List.find? (fun p => p.1 = k) s.settled <;> rfl

theorem lookupSettle_trySettle_self (s : SchedState) (j : Nat) (r : SettleResult)
    (h : lookupSettle s j = none) :
    lookupSettle (trySettle s j r) j = some r := by
  unfold trySettle
  rw [h]
  show (List.find? (fun p => p.1 = j) (s.settled ++ [(j, r)])).map (fun p => p.2) = _
  have hfind : List.find? (fun p => p.1 = j) s.settled = none := by
    unfold lookupSettle at h
    exact Option.map_eq_none'.mp h
  rw [List.find?_append, hfind]
  simp [List.find?]

theorem lookupSettle_trySettle_stay (s : SchedState) (j : Nat) (r r0 : SettleResult)
    (h : lookupSettle s j = some r0) :
    lookupSettle (trySettle s j r) j = some r0 := by
  unfold trySettle
  rw [h]
  exact h

@[simp] theorem startJob_queue (s : SchedState) (j : Nat) :
    (startJob s j).queue = s.queue := rfl

@[simp] theorem startJob_running (s : SchedState) (j : Nat) :
    (startJob s j).running = s.running ++ [j] := rfl

@[simp] theorem startJob_started (s : SchedState) (j : Nat) :
    (startJob s j).started = s.started ++ [j] := rfl

@[simp] theorem startJob_bodyDone (s : SchedState) (j : Nat) :
    (startJob s j).bodyDone = s.bodyDone := rfl

@[simp] theorem startJob_settled (s : SchedState) (j : Nat) :
    (startJob s j).settled = s.settled := rfl

@[simp] theorem startJob_events (s : SchedState) (j : Nat) :
    (startJob s j).events = s.events := rfl

@[simp] theorem startJob_maxParallel (s : SchedState) (j : Nat) :
    (startJob s j).maxParallel = s.maxParallel := rfl

@[simp] theorem startJob_paused (s : SchedState) (j : Nat) :
    (startJob s j).paused = s.paused := rfl

@[simp] theorem startJob_length (s : SchedState) (j : Nat) :
    (startJob s j).allJobs.length = s.allJobs.length := by
  simp [startJob]

@[simp] theorem jobIds_startJob (s : SchedState) (j : Nat) :
    jobIds (startJob s j) = jobIds s := by
  unfold startJob
  exact jobIds_setStatus s j JobStatus.running

@[simp] theorem lookupSettle_startJob (s : SchedState) (j k : Nat) :
    lookupSettle (startJob s j) k = lookupSettle s k := rfl

-- ══ Scheduler: drain lemmas ══════════════════════════════════════════════

theorem drainAux_const (q : List Nat) : ∀ s : SchedState,
    (drainAux q s).settled = s.settled ∧ (drainAux q s).bodyDone = s.bodyDone ∧
    (drainAux q s).paused = s.paused ∧
    (drainAux q s).maxParallel = s.maxParallel ∧
    (drainAux q s).allJobs.length = s.allJobs.length ∧
    jobIds (drainAux q s) = jobIds s := by
  induction q with
  | nil => intro s; exact ⟨rfl, rfl, rfl, rfl, rfl, rfl⟩
  | cons a t ih =>
    intro s
    unfold drainAux
    by_cases h : s.running.length < s.maxParallel
    · rw [if_pos h]
      obtain ⟨h1, h2, h3, h4, h5, h6⟩ := ih (startJob { s with queue := t } a)
      exact ⟨by simp [h1], by simp [h2], by simp [h3], by simp [h4],
        by simp [h5], by simpa using h6⟩
    · rw [if_neg h]
      exact ⟨rfl, rfl, rfl, rfl, rfl, rfl⟩

theorem lookupSettle_drainAux (q : List Nat) : ∀ (s : SchedState) (j : Nat),
    lookupSettle (drainAux q s) j = lookupSettle s j := by
  induction q with
  | nil => intro s j; rfl
  | cons a t ih =>
    intro s j
    unfold drainAux
    by_cases h : s.running.length < s.maxParallel
    · rw [if_pos h]
      rw [ih (startJob { s with queue := t } a) j]
      rfl
    · rw [if_neg h]

theorem drainAux_notmem (q : List Nat) : ∀ (s : SchedState) (j : Nat),
    s.queue = q → j ∉ q →
    getStatus (drainAux q s) j = getStatus s j ∧
    j ∉ (drainAux q s).queue ∧
    ((j ∈ (drainAux q s).started) ↔ j ∈ s.started) ∧
    ((j ∈ (drainAux q s).running) ↔ j ∈ s.running) := by
  induction q with
  | nil =>
    intro s j hq hj
    refine ⟨rfl, ?_, Iff.rfl, Iff.rfl⟩
    show j ∉ s.queue
    rw [hq]
    exact List.not_mem_nil j
  | cons a t ih =>
    intro s j hq hj
    have hja : j ≠ a := fun h => hj (h ▸ List.mem_cons_self a t)
    have hjt : j ∉ t := fun h => hj (List.mem_cons_of_mem a h)
    unfold drainAux
    by_cases h : s.running.length < s.maxParallel
    · rw [if_pos h]
      obtain ⟨g1, g2, g3, g4⟩ := ih (startJob { s with queue := t } a) j rfl hjt
      refine ⟨?_, g2, ?_, ?_⟩
      · rw [g1]
        show getStatus (setStatus { s with queue := t } a JobStatus.running) j = _
        rw [getStatus_setStatus_ne _ _ _ _ hja]
        rfl
      · rw [g3]
        show j ∈ s.started ++ [a] ↔ j ∈ s.started
        simp [hja]
      · rw [g4]
        show j ∈ s.running ++ [a] ↔ j ∈ s.running
        simp [hja]
    · rw [if_neg h]
      refine ⟨rfl, ?_, Iff.rfl, Iff.rfl⟩
      rw [hq]
      exact hj

theorem schedInv_startJob (s : SchedState) (item : Nat) (rest : List Nat)
    (hq : s.queue = item :: rest) (hlt : s.running.length < s.maxParallel)
    (hinv : SchedInv s) : SchedInv (startJob { s with queue := rest } item) := by
  obtain ⟨run_le, qnd, rnd, disj, ids, qp, rs, stlt, bds, setl, fin, cout⟩ := hinv
  have hmem : item ∈ s.queue := hq ▸ List.mem_cons_self item rest
  obtain ⟨hpend, hnst, hnset⟩ := qp item hmem
  have hnr : item ∉ s.running := disj item hmem
  have hqnd : (item :: rest).Nodup := hq ▸ qnd
  have hrestnd : rest.Nodup := (List.nodup_cons.mp hqnd).2
  have hitemrest : item ∉ rest := (List.nodup_cons.mp hqnd).1
  have hsome : (getStatus s item).isSome = true := by rw [hpend]; rfl
  have hrest_sub : ∀ j ∈ rest, j ∈ s.queue := by
    intro j hjr
    rw [hq]
    exact List.mem_cons_of_mem item hjr
  have hmap : (startJob { s with queue := rest } item).allJobs =
      s.allJobs.map (fun job =>
        if job.id = item then { job with status := JobStatus.running } else job) := rfl
  have hgetself : getStatus (startJob { s with queue := rest } item) item =
      some JobStatus.running := by
    show getStatus (setStatus { s with queue := rest } item JobStatus.running) item = _
    exact getStatus_setStatus_self _ _ _ hsome
  have hgetne : ∀ j, j ≠ item →
      getStatus (startJob { s with queue := rest } item) j = getStatus s j := by
    intro j hne
    show getStatus (setStatus { s with queue := rest } item JobStatus.running) j = _
    rw [getStatus_setStatus_ne _ _ _ _ hne]
    rfl
  refine ⟨?_, ?_, ?_, ?_, ?_, ?_, ?_, ?_, ?_, ?_, ?_, ?_⟩
  · show (s.running ++ [item]).length ≤ s.maxParallel
    rw [List.length_append]
    simpa using hlt
  · exact hrestnd
  · show (s.running ++ [item]).Nodup
    rw [List.nodup_append]
    refine ⟨rnd, List.nodup_singleton item, ?_⟩
    intro x hx hx1
    rw [List.mem_singleton] at hx1
    subst hx1
    exact hnr hx
  · intro j hjr
    show j ∉ s.running ++ [item]
    rw [List.mem_append, List.mem_singleton]
    rintro (hc | hc)
    · exact disj j (hrest_sub j hjr) hc
    · subst hc
      exact hitemrest hjr
  · simp only [jobIds_startJob, startJob_length]
    exact ids
  · intro j hjr
    have hne : j ≠ item := fun hh => hitemrest (hh ▸ hjr)
    obtain ⟨hp, hs2, hset⟩ := qp j (hrest_sub j hjr)
    refine ⟨?_, ?_, ?_⟩
    · rw [hgetne j hne]
      exact hp
    · show j ∉ s.started ++ [item]
      rw [List.mem_append, List.mem_singleton]
      rintro (hc | hc)
      · exact hs2 hc
      · exact hne hc
    · show lookupSettle s j = none
      exact hset
  · intro j hjr
    rw [startJob_running] at hjr
    show (getStatus (startJob { s with queue := rest } item) j = some JobStatus.running ∨
        getStatus (startJob { s with queue := rest } item) j = some JobStatus.cancelled) ∧
      j ∈ s.started ++ [item] ∧ j ∉ s.bodyDone ∧ lookupSettle s j = none
    rw [List.mem_append, List.mem_singleton] at hjr
    rcases hjr with hjr | hjr
    · have hne : j ≠ item := fun hh => hnr (hh ▸ hjr)
      obtain ⟨hst, hstt, hbd, hset⟩ := rs j hjr
      rw [hgetne j hne]
      exact ⟨hst, by rw [List.mem_append]; exact Or.inl hstt, hbd, hset⟩
    · subst hjr
      refine ⟨Or.inl hgetself, ?_, ?_, hnset⟩
      · rw [List.mem_append, List.mem_singleton]
        exact Or.inr rfl
      · intro hc
        exact hnst (bds j hc)
  · intro j hjs
    rw [startJob_length]
    rw [startJob_started] at hjs
    rw [List.mem_append, List.mem_singleton] at hjs
    rcases hjs with hjs | hjs
    · exact stlt j hjs
    · subst hjs
      exact (getStatus_isSome_iff s ids j).mp hsome
  · intro j hjb
    show j ∈ s.started ++ [item]
    rw [List.mem_append]
    exact Or.inl (bds j hjb)
  · intro p hp
    rw [startJob_length]
    exact setl p hp
  · intro job hjob hterm
    rw [hmap, List.mem_map] at hjob
    obtain ⟨job0, hj0, rfl⟩ := hjob
    by_cases hid : job0.id = item
    · rw [if_pos hid] at hterm ⊢
      rcases hterm with hterm | hterm <;> simp at hterm
    · rw [if_neg hid] at hterm ⊢
      obtain ⟨hbd, hq2, hr2⟩ := fin job0 hj0 hterm
      refine ⟨hbd, ?_, ?_⟩
      · intro hc
        exact hq2 (hrest_sub _ hc)
      · simp only [startJob_running, List.mem_append, List.mem_singleton]
        rintro (hc | hc)
        · exact hr2 hc
        · exact hid hc
  · intro job hjob hcanc
    rw [hmap, List.mem_map] at hjob
    obtain ⟨job0, hj0, rfl⟩ := hjob
    by_cases hid : job0.id = item
    · rw [if_pos hid] at hcanc
      simp at hcanc
    · rw [if_neg hid] at hcanc ⊢
      intro hc
      exact cout job0 hj0 hcanc (hrest_sub _ hc)

theorem schedInv_drainAux (q : List Nat) : ∀ (s : SchedState),
    s.queue = q → SchedInv s → SchedInv (drainAux q s) := by
  induction q with
  | nil => intro s _ hinv; exact hinv
  | cons a t ih =>
    intro s hq hinv
    unfold drainAux
    by_cases h : s.running.length < s.maxParallel
    · rw [if_pos h]
      exact ih (startJob { s with queue := t } a) rfl
        (schedInv_startJob s a t hq h hinv)
    · rw [if_neg h]
      exact hinv

theorem schedInv_drain (s : SchedState) (hinv : SchedInv s) : SchedInv (drain s) := by
  unfold drain
  split
  · exact hinv
  · exact schedInv_drainAux s.queue s rfl hinv

-- ══ Scheduler: invariant preservation per operation ══════════════════════

theorem or_of_isSome {α : Type} (a b : Option α) (h : a.isSome = true) :
    a.or b = a := by
  cases a with
  | none => simp at h
  | some v => rfl

theorem mem_jobId_lt (s : SchedState)
    (hids : jobIds s = List.range s.allJobs.length)
    (job : Job) (h : job ∈ s.allJobs) : job.id < s.allJobs.length := by
  have hm : job.id ∈ jobIds s := List.mem_map_of_mem (fun job => job.id) h
  rw [hids, List.mem_range] at hm
  exact hm

theorem find?_status_append (l1 l2 : List Job) (j : Nat)
    (h : ((l1.find? (fun job => job.id = j)).map (fun job => job.status)).isSome = true) :
    ((l1 ++ l2).find? (fun job => job.id = j)).map (fun job => job.status) =
      (l1.find? (fun job => job.id = j)).map (fun job => job.status) := by
  rw [isSome_map] at h
  rw [List.find?_append, or_of_isSome _ _ h]

theorem find?_status_append_new (l1 : List Job) (x : Job)
    (h : ∀ job ∈ l1, job.id ≠ x.id) :
    ((l1 ++ [x]).find? (fun job => job.id = x.id)).map (fun job => job.status) =
      some x.status := by
  have h1 : l1.find? (fun job => job.id = x.id) = none := by
    rw [List.find?_eq_none]
    intro job hj
    simpa using h job hj
  rw [List.find?_append, h1]
  simp [List.find?]

theorem lookupSettle_none_of_ge (s : SchedState) (j : Nat)
    (hlt : ∀ p ∈ s.settled, p.1 < s.allJobs.length)
    (hj : s.allJobs.length ≤ j) :
    lookupSettle s j = none := by
  unfold lookupSettle
  have h1 : s.settled.find? (fun p => p.1 = j) = none := by
    rw [List.find?_eq_none]
    intro p hp
    have := hlt p hp
    simp only [decide_eq_true_eq]
    omega
  rw [h1]
  rfl

theorem schedInv_setPaused (s : SchedState) (b : Bool) (hinv : SchedInv s) :
    SchedInv { s with paused := b } :=
  ⟨hinv.run_le, hinv.queue_nodup, hinv.run_nodup, hinv.disjoint, hinv.ids_range,
   hinv.queue_pending, hinv.run_state, hinv.started_lt, hinv.bodyDone_started,
   hinv.settled_lt, hinv.final_done, hinv.cancelled_out⟩

theorem schedInv_enqueue_mid (s : SchedState) (a t : String) (hinv : SchedInv s) :
    SchedInv { s with
      allJobs := s.allJobs ++ [mkJob s.allJobs.length a t]
      queue := s.queue ++ [s.allJobs.length]
      events := s.events ++ [SchedEvent.scheduled s.allJobs.length] } := by
  obtain ⟨run_le, qnd, rnd, disj, ids, qp, rs, stlt, bds, setl, fin, cout⟩ := hinv
  have hqlt : ∀ j ∈ s.queue, j < s.allJobs.length := by
    intro j hj
    refine (getStatus_isSome_iff s ids j).mp ?_
    rw [(qp j hj).1]
    rfl
  have hrlt : ∀ j ∈ s.running, j < s.allJobs.length := by
    intro j hj
    refine (getStatus_isSome_iff s ids j).mp ?_
    rcases (rs j hj).1 with h | h <;> rw [h] <;> rfl
  refine ⟨run_le, ?_, rnd, ?_, ?_, ?_, ?_, ?_, bds, ?_, ?_, ?_⟩
  · show (s.queue ++ [s.allJobs.length]).Nodup
    rw [List.nodup_append]
    refine ⟨qnd, List.nodup_singleton _, ?_⟩
    intro x hx hx1
    rw [List.mem_singleton] at hx1
    have := hqlt x hx
    omega
  · intro j hj
    show j ∉ s.running
    simp only [List.mem_append, List.mem_singleton] at hj
    rcases hj with hj | hj
    · exact disj j hj
    · subst hj
      intro hc
      exact absurd (hrlt _ hc) (by omega)
  · unfold jobIds
    simp only [List.map_append, List.length_append, List.map_cons, List.map_nil,
      List.length_cons, List.length_nil]
    have ids2 : List.map (fun job => job.id) s.allJobs = List.range s.allJobs.length := ids
    rw [ids2]
    rw [show s.allJobs.length + (0 + 1) = s.allJobs.length + 1 by omega, List.range_succ]
    rfl
  · intro j hj
    simp only [List.mem_append, List.mem_singleton] at hj
    rcases hj with hj | hj
    · obtain ⟨hp, hstt, hset⟩ := qp j hj
      refine ⟨?_, hstt, hset⟩
      show ((s.allJobs ++ [mkJob s.allJobs.length a t]).find? (fun job => job.id = j)).map
            (fun job => job.status) = some JobStatus.pending
      rw [find?_status_append]
      · exact hp
      · show (getStatus s j).isSome = true
        rw [hp]
        rfl
    · subst hj
      refine ⟨?_, ?_, ?_⟩
      · show ((s.allJobs ++ [mkJob s.allJobs.length a t]).find?
              (fun job => job.id = s.allJobs.length)).map
            (fun job => job.status) = some JobStatus.pending
        have := find?_status_append_new s.allJobs (mkJob s.allJobs.length a t)
          (fun job hj => by
            have := mem_jobId_lt s ids job hj
            simp only [mkJob]
            omega)
        simpa [mkJob] using this
      · intro hc
        exact absurd (stlt _ hc) (by omega)
      · exact lookupSettle_none_of_ge s s.allJobs.length setl (le_refl _)
  · intro j hj
    obtain ⟨hst, hstt, hbd, hset⟩ := rs j hj
    refine ⟨?_, hstt, hbd, hset⟩
    have hsome : (getStatus s j).isSome = true := by
      rcases hst with h | h <;> rw [h] <;> rfl
    have hre : ((s.allJobs ++ [mkJob s.allJobs.length a t]).find?
          (fun job => job.id = j)).map
          (fun job => job.status) = getStatus s j :=
      find?_status_append _ _ _ hsome
    rcases hst with h | h
    · exact Or.inl (hre.trans h)
    · exact Or.inr (hre.trans h)
  · intro j hj
    show j < (s.allJobs ++ [_]).length
    have := stlt j hj
    rw [List.length_append]
    omega
  · intro p hp
    show p.1 < (s.allJobs ++ [_]).length
    have := setl p hp
    rw [List.length_append]
    omega
  · intro job hjob hterm
    simp only [List.mem_append, List.mem_singleton] at hjob
    rcases hjob with hjob | hjob
    · obtain ⟨hbd, hq2, hr2⟩ := fin job hjob hterm
      refine ⟨hbd, ?_, hr2⟩
      show job.id ∉ s.queue ++ [s.allJobs.length]
      rw [List.mem_append, List.mem_singleton]
      rintro (hc | hc)
      · exact hq2 hc
      · have := mem_jobId_lt s ids job hjob
        omega
    · subst hjob
      rcases hterm with hterm | hterm <;> simp [mkJob] at hterm
  · intro job hjob hcanc
    simp only [List.mem_append, List.mem_singleton] at hjob
    rcases hjob with hjob | hjob
    · show job.id ∉ s.queue ++ [s.allJobs.length]
      rw [List.mem_append, List.mem_singleton]
      rintro (hc | hc)
      · exact cout job hjob hcanc hc
      · have := mem_jobId_lt s ids job hjob
        omega
    · subst hjob
      simp [mkJob] at hcanc

theorem schedInv_enqueue (s : SchedState) (a t : String) (hinv : SchedInv s) :
    SchedInv (enqueue s a t) := by
  unfold enqueue
  apply schedInv_drain
  exact schedInv_enqueue_mid s a t hinv

theorem settled_trySettle_cases (s : SchedState) (j : Nat) (r : SettleResult)
    (p : Nat × SettleResult) (hp : p ∈ (trySettle s j r).settled) :
    p ∈ s.settled ∨ p = (j, r) := by
  unfold trySettle at hp
  split at hp
  · exact Or.inl hp
  · rw [List.mem_append, List.mem_singleton] at hp
    exact hp

theorem schedInv_completeJob_mid (s : SchedState) (j : Nat) (stNew : JobStatus)
    (res : SettleResult)
    (hterm : stNew = JobStatus.completed ∨ stNew = JobStatus.failed)
    (hstart : j ∈ s.started) (hnbd : j ∉ s.bodyDone) (hinv : SchedInv s) :
    SchedInv { trySettle (addEvent (setStatus s j stNew) (SchedEvent.completed j)) j res with
      running := (trySettle (addEvent (setStatus s j stNew) (SchedEvent.completed j))
        j res).running.erase j
      bodyDone := (trySettle (addEvent (setStatus s j stNew) (SchedEvent.completed j))
        j res).bodyDone ++ [j] } := by
  obtain ⟨run_le, qnd, rnd, disj, ids, qp, rs, stlt, bds, setl, fin, cout⟩ := hinv
  have hj_lt : j < s.allJobs.length := stlt j hstart
  have hsome : (getStatus s j).isSome = true := (getStatus_isSome_iff s ids j).mpr hj_lt
  have hjq : j ∉ s.queue := fun hc => (qp j hc).2.1 hstart
  have hget_ne : ∀ k, k ≠ j →
      getStatus (trySettle (addEvent (setStatus s j stNew) (SchedEvent.completed j)) j res) k
        = getStatus s k := by
    intro k hk
    rw [getStatus_trySettle, getStatus_addEvent, getStatus_setStatus_ne _ _ _ _ hk]
  have hget_self :
      getStatus (trySettle (addEvent (setStatus s j stNew) (SchedEvent.completed j)) j res) j
        = some stNew := by
    rw [getStatus_trySettle, getStatus_addEvent]
    exact getStatus_setStatus_self s j stNew hsome
  refine ⟨?_, ?_, ?_, ?_, ?_, ?_, ?_, ?_, ?_, ?_, ?_, ?_⟩
  · show ((trySettle _ j res).running.erase j).length ≤ _
    rw [trySettle_running, addEvent_running, setStatus_running, trySettle_maxParallel,
      addEvent_maxParallel, setStatus_maxParallel]
    exact le_trans (List.Sublist.length_le (List.erase_sublist j s.running)) run_le
  · show (trySettle _ j res).queue.Nodup
    rw [trySettle_queue, addEvent_queue, setStatus_queue]
    exact qnd
  · show ((trySettle _ j res).running.erase j).Nodup
    rw [trySettle_running, addEvent_running, setStatus_running]
    exact rnd.erase j
  · intro q hq
    rw [trySettle_queue, addEvent_queue, setStatus_queue] at hq
    show q ∉ (trySettle _ j res).running.erase j
    rw [trySettle_running, addEvent_running, setStatus_running]
    intro hc
    exact disj q hq (List.erase_subset j s.running hc)
  · show jobIds (trySettle _ j res) = List.range (trySettle _ j res).allJobs.length
    rw [jobIds_trySettle]
    show jobIds (setStatus s j stNew) = _
    rw [jobIds_setStatus, trySettle_allJobs, addEvent_allJobs, setStatus_length]
    exact ids
  · intro q hq
    rw [trySettle_queue, addEvent_queue, setStatus_queue] at hq
    have hne : q ≠ j := fun hh => hjq (hh ▸ hq)
    obtain ⟨hp, hstt, hset⟩ := qp q hq
    refine ⟨?_, ?_, ?_⟩
    · show getStatus (trySettle _ j res) q = _
      rw [hget_ne q hne]
      exact hp
    · show q ∉ (trySettle _ j res).started
      rw [trySettle_started, addEvent_started, setStatus_started]
      exact hstt
    · show lookupSettle (trySettle _ j res) q = none
      rw [lookupSettle_trySettle_ne _ _ _ _ hne]
      show lookupSettle s q = none
      exact hset
  · intro r hr
    rw [trySettle_running, addEvent_running, setStatus_running] at hr
    rw [rnd.mem_erase_iff] at hr
    obtain ⟨hrne, hrmem⟩ := hr
    obtain ⟨hst, hstt, hbd, hset⟩ := rs r hrmem
    refine ⟨?_, ?_, ?_, ?_⟩
    · show getStatus (trySettle (addEvent (setStatus s j stNew)
          (SchedEvent.completed j)) j res) r = some JobStatus.running ∨
        getStatus (trySettle (addEvent (setStatus s j stNew)
          (SchedEvent.completed j)) j res) r = some JobStatus.cancelled
      rw [hget_ne r hrne]
      exact hst
    · show r ∈ (trySettle _ j res).started
      rw [trySettle_started, addEvent_started, setStatus_started]
      exact hstt
    · show r ∉ (trySettle _ j res).bodyDone ++ [j]
      rw [trySettle_bodyDone, addEvent_bodyDone, setStatus_bodyDone]
      rw [List.mem_append, List.mem_singleton]
      rintro (hc | hc)
      · exact hbd hc
      · exact hrne hc
    · show lookupSettle (trySettle _ j res) r = none
      rw [lookupSettle_trySettle_ne _ _ _ _ hrne]
      exact hset
  · intro q hq
    rw [trySettle_started, addEvent_started, setStatus_started] at hq
    show q < (trySettle _ j res).allJobs.length
    rw [trySettle_allJobs, addEvent_allJobs, setStatus_length]
    exact stlt q hq
  · intro q hq
    rw [trySettle_bodyDone, addEvent_bodyDone, setStatus_bodyDone] at hq
    rw [List.mem_append, List.mem_singleton] at hq
    show q ∈ (trySettle _ j res).started
    rw [trySettle_started, addEvent_started, setStatus_started]
    rcases hq with hq | hq
    · exact bds q hq
    · subst hq
      exact hstart
  · intro p hp
    show p.1 < (trySettle _ j res).allJobs.length
    rw [trySettle_allJobs, addEvent_allJobs, setStatus_length]
    rcases settled_trySettle_cases _ j res p hp with hc | hc
    · rw [addEvent_settled, setStatus_settled] at hc
      exact setl p hc
    · subst hc
      exact hj_lt
  · intro job hjob hterm2
    rw [trySettle_allJobs, addEvent_allJobs] at hjob
    show job.id ∈ (trySettle _ j res).bodyDone ++ [j] ∧
      job.id ∉ (trySettle _ j res).queue ∧
      job.id ∉ (trySettle _ j res).running.erase j
    rw [trySettle_bodyDone, addEvent_bodyDone, setStatus_bodyDone,
      trySettle_queue, addEvent_queue, setStatus_queue,
      trySettle_running, addEvent_running, setStatus_running]
    have hjob2 : job ∈ s.allJobs.map (fun job =>
        if job.id = j then { job with status := stNew } else job) := hjob
    rw [List.mem_map] at hjob2
    obtain ⟨job0, hj0, rfl⟩ := hjob2
    by_cases hid : job0.id = j
    · rw [if_pos hid]
      refine ⟨?_, ?_, ?_⟩
      · rw [List.mem_append, List.mem_singleton]
        exact Or.inr hid
      · rw [hid]
        exact hjq
      · rw [hid]
        exact rnd.not_mem_erase
    · rw [if_neg hid] at hterm2 ⊢
      obtain ⟨hbd0, hq0, hr0⟩ := fin job0 hj0 hterm2
      refine ⟨?_, hq0, ?_⟩
      · rw [List.mem_append]
        exact Or.inl hbd0
      · intro hc
        exact hr0 (List.erase_subset j s.running hc)
  · intro job hjob hcanc
    rw [trySettle_allJobs, addEvent_allJobs] at hjob
    show job.id ∉ (trySettle _ j res).queue
    rw [trySettle_queue, addEvent_queue, setStatus_queue]
    have hjob2 : job ∈ s.allJobs.map (fun job =>
        if job.id = j then { job with status := stNew } else job) := hjob
    rw [List.mem_map] at hjob2
    obtain ⟨job0, hj0, rfl⟩ := hjob2
    by_cases hid : job0.id = j
    · rw [if_pos hid] at hcanc
      simp only [] at hcanc
      rcases hterm with h | h <;> rw [h] at hcanc <;> exact absurd hcanc (by simp)
    · rw [if_neg hid] at hcanc ⊢
      exact cout job0 hj0 hcanc

theorem schedInv_completeJob (s : SchedState) (j : Nat) (oc : Outcome)
    (hinv : SchedInv s) : SchedInv (completeJob s j oc) := by
  unfold completeJob
  by_cases hg : j ∈ s.started ∧ j ∉ s.bodyDone
  · rw [if_pos hg]
    apply schedInv_drain
    cases oc with
    | success =>
      exact schedInv_completeJob_mid s j JobStatus.completed SettleResult.resolved
        (Or.inl rfl) hg.1 hg.2 hinv
    | failure =>
      exact schedInv_completeJob_mid s j JobStatus.failed SettleResult.rejected
        (Or.inr rfl) hg.1 hg.2 hinv
  · rw [if_neg hg]
    exact hinv

@[simp] theorem cancelOne_queue (s : SchedState) (j : Nat) :
    (cancelOne s j).queue = s.queue := by
  unfold cancelOne
  rw [trySettle_queue, addEvent_queue, setStatus_queue]

@[simp] theorem cancelOne_running (s : SchedState) (j : Nat) :
    (cancelOne s j).running = s.running := by
  unfold cancelOne
  rw [trySettle_running, addEvent_running, setStatus_running]

@[simp] theorem cancelOne_started (s : SchedState) (j : Nat) :
    (cancelOne s j).started = s.started := by
  unfold cancelOne
  rw [trySettle_started, addEvent_started, setStatus_started]

@[simp] theorem cancelOne_bodyDone (s : SchedState) (j : Nat) :
    (cancelOne s j).bodyDone = s.bodyDone := by
  unfold cancelOne
  rw [trySettle_bodyDone, addEvent_bodyDone, setStatus_bodyDone]

@[simp] theorem cancelOne_maxParallel (s : SchedState) (j : Nat) :
    (cancelOne s j).maxParallel = s.maxParallel := by
  unfold cancelOne
  rw [trySettle_maxParallel, addEvent_maxParallel, setStatus_maxParallel]

@[simp] theorem cancelOne_paused (s : SchedState) (j : Nat) :
    (cancelOne s j).paused = s.paused := by
  unfold cancelOne
  rw [trySettle_paused, addEvent_paused, setStatus_paused]

theorem cancelOne_allJobs (s : SchedState) (j : Nat) :
    (cancelOne s j).allJobs = s.allJobs.map (fun job =>
      if job.id = j then { job with status := JobStatus.cancelled } else job) := by
  unfold cancelOne
  rw [trySettle_allJobs, addEvent_allJobs]
  rfl

@[simp] theorem cancelOne_length (s : SchedState) (j : Nat) :
    (cancelOne s j).allJobs.length = s.allJobs.length := by
  rw [cancelOne_allJobs, List.length_map]

@[simp] theorem jobIds_cancelOne (s : SchedState) (j : Nat) :
    jobIds (cancelOne s j) = jobIds s := by
  unfold cancelOne
  rw [jobIds_trySettle]
  show jobIds (setStatus s j JobStatus.cancelled) = jobIds s
  rw [jobIds_setStatus]

theorem getStatus_cancelOne_ne (s : SchedState) (j k : Nat) (h : k ≠ j) :
    getStatus (cancelOne s j) k = getStatus s k := by
  unfold cancelOne
  rw [getStatus_trySettle, getStatus_addEvent, getStatus_setStatus_ne _ _ _ _ h]

theorem getStatus_cancelOne_self (s : SchedState) (j : Nat)
    (h : (getStatus s j).isSome = true) :
    getStatus (cancelOne s j) j = some JobStatus.cancelled := by
  unfold cancelOne
  rw [getStatus_trySettle, getStatus_addEvent]
  exact getStatus_setStatus_self s j _ h

theorem getStatus_isSome_cancelOne (s : SchedState) (j k : Nat) :
    (getStatus (cancelOne s j) k).isSome = (getStatus s k).isSome := by
  unfold cancelOne
  rw [getStatus_trySettle, getStatus_addEvent, getStatus_isSome_setStatus]

theorem lookupSettle_cancelOne_ne (s : SchedState) (j k : Nat) (h : k ≠ j) :
    lookupSettle (cancelOne s j) k = lookupSettle s k := by
  unfold cancelOne
  rw [lookupSettle_trySettle_ne _ _ _ _ h]
  rfl

theorem lookupSettle_cancelOne_self (s : SchedState) (j : Nat)
    (h : lookupSettle s j = none) :
    lookupSettle (cancelOne s j) j = some SettleResult.rejected := by
  unfold cancelOne
  exact lookupSettle_trySettle_self _ _ _ h

theorem lookupSettle_cancelOne_stay (s : SchedState) (j : Nat) (r0 : SettleResult)
    (h : lookupSettle s j = some r0) :
    lookupSettle (cancelOne s j) j = some r0 := by
  unfold cancelOne
  exact lookupSettle_trySettle_stay _ _ _ _ h

theorem settled_cancelOne_cases (s : SchedState) (j : Nat) (p : Nat × SettleResult)
    (hp : p ∈ (cancelOne s j).settled) :
    p ∈ s.settled ∨ p = (j, SettleResult.rejected) := by
  unfold cancelOne at hp
  have := settled_trySettle_cases _ j SettleResult.rejected p hp
  rcases this with hc | hc
  · rw [addEvent_settled, setStatus_settled] at hc
    exact Or.inl hc
  · exact Or.inr hc

theorem schedInv_eraseQueue (s : SchedState) (j : Nat) (hinv : SchedInv s) :
    SchedInv { s with queue := s.queue.erase j } := by
  obtain ⟨run_le, qnd, rnd, disj, ids, qp, rs, stlt, bds, setl, fin, cout⟩ := hinv
  refine ⟨run_le, ?_, rnd, ?_, ids, ?_, rs, stlt, bds, setl, ?_, ?_⟩
  · show (s.queue.erase j).Nodup
    exact qnd.erase j
  · intro q hq
    exact disj q (List.erase_subset j s.queue hq)
  · intro q hq
    exact qp q (List.erase_subset j s.queue hq)
  · intro job hjob hterm
    obtain ⟨h1, h2, h3⟩ := fin job hjob hterm
    refine ⟨h1, ?_, h3⟩
    show job.id ∉ s.queue.erase j
    intro hc
    exact h2 (List.erase_subset j s.queue hc)
  · intro job hjob hcanc
    show job.id ∉ s.queue.erase j
    intro hc
    exact cout job hjob hcanc (List.erase_subset j s.queue hc)

theorem schedInv_cancelOne_out (s : SchedState) (j : Nat) (hinv : SchedInv s)
    (hjq : j ∉ s.queue) (hjr : j ∉ s.running) (hj_lt : j < s.allJobs.length) :
    SchedInv (cancelOne s j) := by
  obtain ⟨run_le, qnd, rnd, disj, ids, qp, rs, stlt, bds, setl, fin, cout⟩ := hinv
  refine ⟨?_, ?_, ?_, ?_, ?_, ?_, ?_, ?_, ?_, ?_, ?_, ?_⟩
  · rw [cancelOne_running, cancelOne_maxParallel]
    exact run_le
  · rw [cancelOne_queue]
    exact qnd
  · rw [cancelOne_running]
    exact rnd
  · intro q hq2
    rw [cancelOne_queue] at hq2
    rw [cancelOne_running]
    exact disj q hq2
  · rw [jobIds_cancelOne, cancelOne_length]
    exact ids
  · intro q hq2
    rw [cancelOne_queue] at hq2
    have hqne : q ≠ j := fun hh => hjq (hh ▸ hq2)
    obtain ⟨hp, hstt, hset⟩ := qp q hq2
    refine ⟨?_, ?_, ?_⟩
    · rw [getStatus_cancelOne_ne _ _ _ hqne]
      exact hp
    · rw [cancelOne_started]
      exact hstt
    · rw [lookupSettle_cancelOne_ne _ _ _ hqne]
      exact hset
  · intro r hr
    rw [cancelOne_running] at hr
    have hrne : r ≠ j := fun hh => hjr (hh ▸ hr)
    obtain ⟨hst, hstt, hbd, hset⟩ := rs r hr
    rw [cancelOne_started, cancelOne_bodyDone]
    refine ⟨?_, hstt, hbd, ?_⟩
    · rw [getStatus_cancelOne_ne _ _ _ hrne]
      exact hst
    · rw [lookupSettle_cancelOne_ne _ _ _ hrne]
      exact hset
  · intro q hq2
    rw [cancelOne_started] at hq2
    rw [cancelOne_length]
    exact stlt q hq2
  · intro q hq2
    rw [cancelOne_bodyDone] at hq2
    rw [cancelOne_started]
    exact bds q hq2
  · intro p hp
    rw [cancelOne_length]
    rcases settled_cancelOne_cases s j p hp with hc | hc
    · exact setl p hc
    · subst hc
      exact hj_lt
  · intro job hjob hterm
    rw [cancelOne_allJobs, List.mem_map] at hjob
    obtain ⟨job0, hj0, rfl⟩ := hjob
    rw [cancelOne_queue, cancelOne_running, cancelOne_bodyDone]
    by_cases hid : job0.id = j
    · rw [if_pos hid] at hterm
      simp only [] at hterm
      rcases hterm with h | h <;> exact absurd h (by simp)
    · rw [if_neg hid] at hterm ⊢
      exact fin job0 hj0 hterm
  · intro job hjob hcanc
    rw [cancelOne_allJobs, List.mem_map] at hjob
    obtain ⟨job0, hj0, rfl⟩ := hjob
    rw [cancelOne_queue]
    by_cases hid : job0.id = j
    · rw [if_pos hid]
      rw [hid]
      exact hjq
    · rw [if_neg hid] at hcanc ⊢
      exact cout job0 hj0 hcanc

theorem schedInv_cancel (s : SchedState) (j : Nat) (hinv : SchedInv s) :
    SchedInv (cancel s j).2 := by
  unfold cancel
  by_cases hq : j ∈ s.queue
  · rw [if_pos hq]
    obtain ⟨hpend, _, _⟩ := hinv.queue_pending j hq
    have hsome : (getStatus s j).isSome = true := by rw [hpend]; rfl
    have hj_lt : j < s.allJobs.length :=
      (getStatus_isSome_iff s hinv.ids_range j).mp hsome
    exact schedInv_cancelOne_out { s with queue := s.queue.erase j } j
      (schedInv_eraseQueue s j hinv)
      hinv.queue_nodup.not_mem_erase
      (hinv.disjoint j hq)
      hj_lt
  · rw [if_neg hq]
    obtain ⟨run_le, qnd, rnd, disj, ids, qp, rs, stlt, bds, setl, fin, cout⟩ := hinv
    by_cases hr : j ∈ s.running
    · rw [if_pos hr]
      obtain ⟨hst, hstart, hnbd, hset⟩ := rs j hr
      have hsome : (getStatus s j).isSome = true := by
        rcases hst with h | h <;> rw [h] <;> rfl
      have hget_ne : ∀ k, k ≠ j →
          getStatus (addEvent (setStatus s j JobStatus.cancelled)
            (SchedEvent.cancelled j)) k = getStatus s k := by
        intro k hk
        rw [getStatus_addEvent, getStatus_setStatus_ne _ _ _ _ hk]
      have hget_self : getStatus (addEvent (setStatus s j JobStatus.cancelled)
          (SchedEvent.cancelled j)) j = some JobStatus.cancelled := by
        rw [getStatus_addEvent]
        exact getStatus_setStatus_self s j _ hsome
      refine ⟨run_le, qnd, rnd, ?_, ?_, ?_, ?_, ?_, bds, ?_, ?_, ?_⟩
      · intro q hq2
        show q ∉ s.running
        exact disj q hq2
      · show jobIds (setStatus s j JobStatus.cancelled) =
          List.range (setStatus s j JobStatus.cancelled).allJobs.length
        rw [jobIds_setStatus, setStatus_length]
        exact ids
      · intro q hq2
        have hqne : q ≠ j := fun hh => hq (hh ▸ hq2)
        obtain ⟨hp, hstt, hset2⟩ := qp q hq2
        exact ⟨by rw [hget_ne q hqne]; exact hp, hstt, hset2⟩
      · intro r hr2
        replace hr2 : r ∈ s.running := hr2
        obtain ⟨hst2, hstt2, hbd2, hset2⟩ := rs r hr2
        by_cases hrj : r = j
        · subst hrj
          exact ⟨Or.inr hget_self, hstt2, hbd2, hset2⟩
        · exact ⟨by rw [hget_ne r hrj]; exact hst2, hstt2, hbd2, hset2⟩
      · intro q hq2
        show q < (addEvent (setStatus s j JobStatus.cancelled)
          (SchedEvent.cancelled j)).allJobs.length
        rw [addEvent_allJobs, setStatus_length]
        exact stlt q hq2
      · intro p hp
        show p.1 < (addEvent (setStatus s j JobStatus.cancelled)
          (SchedEvent.cancelled j)).allJobs.length
        rw [addEvent_allJobs, setStatus_length]
        exact setl p hp
      · intro job hjob hterm
        replace hjob : job ∈ s.allJobs.map (fun job =>
          if job.id = j then { job with status := JobStatus.cancelled } else job) := hjob
        rw [List.mem_map] at hjob
        obtain ⟨job0, hj0, rfl⟩ := hjob
        by_cases hid : job0.id = j
        · rw [if_pos hid] at hterm
          simp only [] at hterm
          rcases hterm with h | h <;> exact absurd h (by simp)
        · rw [if_neg hid] at hterm ⊢
          exact fin job0 hj0 hterm
      · intro job hjob hcanc
        replace hjob : job ∈ s.allJobs.map (fun job =>
          if job.id = j then { job with status := JobStatus.cancelled } else job) := hjob
        rw [List.mem_map] at hjob
        obtain ⟨job0, hj0, rfl⟩ := hjob
        by_cases hid : job0.id = j
        · rw [if_pos hid]
          show job0.id ∉ s.queue
          rw [hid]
          exact hq
        · rw [if_neg hid] at hcanc ⊢
          exact cout job0 hj0 hcanc
    · rw [if_neg hr]
      exact ⟨run_le, qnd, rnd, disj, ids, qp, rs, stlt, bds, setl, fin, cout⟩

theorem foldl_cancelOne_const (L : List Nat) : ∀ s : SchedState,
    (L.foldl cancelOne s).queue = s.queue ∧
    (L.foldl cancelOne s).running = s.running ∧
    (L.foldl cancelOne s).started = s.started ∧
    (L.foldl cancelOne s).bodyDone = s.bodyDone ∧
    (L.foldl cancelOne s).maxParallel = s.maxParallel ∧
    (L.foldl cancelOne s).paused = s.paused ∧
    (L.foldl cancelOne s).allJobs.length = s.allJobs.length ∧
    jobIds (L.foldl cancelOne s) = jobIds s := by
  induction L with
  | nil => intro s; exact ⟨rfl, rfl, rfl, rfl, rfl, rfl, rfl, rfl⟩
  | cons a t ih =>
    intro s
    rw [List.foldl_cons]
    obtain ⟨h1, h2, h3, h4, h5, h6, h7, h8⟩ := ih (cancelOne s a)
    exact ⟨by rw [h1, cancelOne_queue], by rw [h2, cancelOne_running],
      by rw [h3, cancelOne_started], by rw [h4, cancelOne_bodyDone],
      by rw [h5, cancelOne_maxParallel], by rw [h6, cancelOne_paused],
      by rw [h7, cancelOne_length], by rw [h8, jobIds_cancelOne]⟩

theorem foldl_cancelOne_settled (L : List Nat) :
    ∀ (s : SchedState) (p : Nat × SettleResult),
    p ∈ (L.foldl cancelOne s).settled → p ∈ s.settled ∨ p.1 ∈ L := by
  induction L with
  | nil => intro s p hp; exact Or.inl hp
  | cons a t ih =>
    intro s p hp
    rw [List.foldl_cons] at hp
    rcases ih (cancelOne s a) p hp with hc | hc
    · rcases settled_cancelOne_cases s a p hc with hd | hd
      · exact Or.inl hd
      · refine Or.inr ?_
        rw [hd]
        exact List.mem_cons_self a t
    · exact Or.inr (List.mem_cons_of_mem a hc)

theorem foldl_cancelOne_jobs (L : List Nat) : ∀ (s : SchedState) (job : Job),
    job ∈ (L.foldl cancelOne s).allJobs →
    ∃ job0 ∈ s.allJobs, job.id = job0.id ∧
      (job.status = job0.status ∨ job.status = JobStatus.cancelled) := by
  induction L with
  | nil => intro s job hj; exact ⟨job, hj, rfl, Or.inl rfl⟩
  | cons a t ih =>
    intro s job hj
    rw [List.foldl_cons] at hj
    obtain ⟨job1, hj1, hid1, hst1⟩ := ih (cancelOne s a) job hj
    rw [cancelOne_allJobs, List.mem_map] at hj1
    obtain ⟨job0, hj0, rfl⟩ := hj1
    by_cases hid : job0.id = a
    · rw [if_pos hid] at hid1 hst1
      refine ⟨job0, hj0, hid1, ?_⟩
      rcases hst1 with h | h
      · exact Or.inr h
      · exact Or.inr h
    · rw [if_neg hid] at hid1 hst1
      exact ⟨job0, hj0, hid1, hst1⟩

theorem foldl_cancelOne_notmem (L : List Nat) : ∀ (s : SchedState) (j : Nat), j ∉ L →
    getStatus (L.foldl cancelOne s) j = getStatus s j ∧
    lookupSettle (L.foldl cancelOne s) j = lookupSettle s j := by
  induction L with
  | nil => intro s j _; exact ⟨rfl, rfl⟩
  | cons a t ih =>
    intro s j hj
    have hja : j ≠ a := fun h => hj (h ▸ List.mem_cons_self a t)
    have hjt : j ∉ t := fun h => hj (List.mem_cons_of_mem a h)
    rw [List.foldl_cons]
    obtain ⟨h1, h2⟩ := ih (cancelOne s a) j hjt
    exact ⟨by rw [h1, getStatus_cancelOne_ne _ _ _ hja],
      by rw [h2, lookupSettle_cancelOne_ne _ _ _ hja]⟩

theorem foldl_cancelOne_mem (L : List Nat) : ∀ (s : SchedState) (j : Nat),
    L.Nodup → j ∈ L → (getStatus s j).isSome = true → lookupSettle s j = none →
    getStatus (L.foldl cancelOne s) j = some JobStatus.cancelled ∧
    lookupSettle (L.foldl cancelOne s) j = some SettleResult.rejected := by
  induction L with
  | nil => intro s j _ hmem; exact absurd hmem (List.not_mem_nil j)
  | cons a t ih =>
    intro s j hnd hmem hsome hset
    have hat : a ∉ t := (List.nodup_cons.mp hnd).1
    rw [List.foldl_cons]
    rcases List.mem_cons.mp hmem with hja | hjt
    · subst hja
      obtain ⟨h1, h2⟩ := foldl_cancelOne_notmem t (cancelOne s j) j hat
      refine ⟨?_, ?_⟩
      · rw [h1]
        exact getStatus_cancelOne_self s j hsome
      · rw [h2]
        exact lookupSettle_cancelOne_self s j hset
    · have hja : j ≠ a := fun h => hat (h ▸ hjt)
      refine ih (cancelOne s a) j (List.nodup_cons.mp hnd).2 hjt ?_ ?_
      · rw [getStatus_isSome_cancelOne]
        exact hsome
      · rw [lookupSettle_cancelOne_ne _ _ _ hja]
        exact hset

theorem schedInv_cancelAll (s : SchedState) (hinv : SchedInv s) :
    SchedInv (cancelAll s) := by
  obtain ⟨run_le, qnd, rnd, disj, ids, qp, rs, stlt, bds, setl, fin, cout⟩ := hinv
  have hqlt : ∀ j ∈ s.queue, j < s.allJobs.length := by
    intro j hj
    refine (getStatus_isSome_iff s ids j).mp ?_
    rw [(qp j hj).1]
    rfl
  have hrlt : ∀ j ∈ s.running, j < s.allJobs.length := by
    intro j hj
    refine (getStatus_isSome_iff s ids j).mp ?_
    rcases (rs j hj).1 with h | h <;> rw [h] <;> rfl
  obtain ⟨q1, r1, st1, bd1, mp1, p1, len1, ids1⟩ := foldl_cancelOne_const s.queue s
  have hfold : List.foldl cancelOne
      { s.queue.foldl cancelOne s with queue := ([] : List Nat) }
      ((s.queue.foldl cancelOne s).running) =
    List.foldl cancelOne
      { s.queue.foldl cancelOne s with queue := ([] : List Nat) } s.running := by
    rw [r1]
  show SchedInv { List.foldl cancelOne
      { s.queue.foldl cancelOne s with queue := ([] : List Nat) }
      ((s.queue.foldl cancelOne s).running) with running := ([] : List Nat) }
  rw [hfold]
  obtain ⟨q2, r2, st2, bd2, mp2, p2, len2, ids2⟩ := foldl_cancelOne_const s.running
    { s.queue.foldl cancelOne s with queue := ([] : List Nat) }
  have hq0 : (s.running.foldl cancelOne
      { s.queue.foldl cancelOne s with queue := ([] : List Nat) }).queue = [] := q2
  have hst0 : (s.running.foldl cancelOne
      { s.queue.foldl cancelOne s with queue := ([] : List Nat) }).started
      = s.started := by rw [st2]; exact st1
  have hbd0 : (s.running.foldl cancelOne
      { s.queue.foldl cancelOne s with queue := ([] : List Nat) }).bodyDone
      = s.bodyDone := by rw [bd2]; exact bd1
  have hlen0 : (s.running.foldl cancelOne
      { s.queue.foldl cancelOne s with queue := ([] : List Nat) }).allJobs.length
      = s.allJobs.length := by rw [len2]; exact len1
  have hids0 : jobIds (s.running.foldl cancelOne
      { s.queue.foldl cancelOne s with queue := ([] : List Nat) })
      = jobIds s := by rw [ids2]; exact ids1
  refine ⟨?_, ?_, ?_, ?_, ?_, ?_, ?_, ?_, ?_, ?_, ?_, ?_⟩
  · exact Nat.zero_le _
  · show (s.running.foldl cancelOne
      { s.queue.foldl cancelOne s with queue := ([] : List Nat) }).queue.Nodup
    rw [hq0]
    exact List.nodup_nil
  · exact List.nodup_nil
  · intro j hj
    replace hj : j ∈ (s.running.foldl cancelOne
      { s.queue.foldl cancelOne s with queue := ([] : List Nat) }).queue := hj
    rw [hq0] at hj
    exact absurd hj (List.not_mem_nil j)
  · show jobIds (s.running.foldl cancelOne
        { s.queue.foldl cancelOne s with queue := ([] : List Nat) }) =
      List.range (s.running.foldl cancelOne
        { s.queue.foldl cancelOne s with queue := ([] : List Nat) }).allJobs.length
    rw [hids0, hlen0]
    exact ids
  · intro j hj
    replace hj : j ∈ (s.running.foldl cancelOne
      { s.queue.foldl cancelOne s with queue := ([] : List Nat) }).queue := hj
    rw [hq0] at hj
    exact absurd hj (List.not_mem_nil j)
  · intro j hj
    exact absurd hj (List.not_mem_nil j)
  · intro j hj
    replace hj : j ∈ (s.running.foldl cancelOne
      { s.queue.foldl cancelOne s with queue := ([] : List Nat) }).started := hj
    rw [hst0] at hj
    show j < (s.running.foldl cancelOne
      { s.queue.foldl cancelOne s with queue := ([] : List Nat) }).allJobs.length
    rw [hlen0]
    exact stlt j hj
  · intro j hj
    replace hj : j ∈ (s.running.foldl cancelOne
      { s.queue.foldl cancelOne s with queue := ([] : List Nat) }).bodyDone := hj
    rw [hbd0] at hj
    show j ∈ (s.running.foldl cancelOne
      { s.queue.foldl cancelOne s with queue := ([] : List Nat) }).started
    rw [hst0]
    exact bds j hj
  · intro p hp
    replace hp : p ∈ (s.running.foldl cancelOne
      { s.queue.foldl cancelOne s with queue := ([] : List Nat) }).settled := hp
    show p.1 < (s.running.foldl cancelOne
      { s.queue.foldl cancelOne s with queue := ([] : List Nat) }).allJobs.length
    rw [hlen0]
    rcases foldl_cancelOne_settled s.running _ p hp with hc | hc
    · have hc2 : p ∈ (s.queue.foldl cancelOne s).settled := hc
      rcases foldl_cancelOne_settled s.queue s p hc2 with hd | hd
      · exact setl p hd
      · exact hqlt p.1 hd
    · exact hrlt p.1 hc
  · intro job hjob hterm
    replace hjob : job ∈ (s.running.foldl cancelOne
      { s.queue.foldl cancelOne s with queue := ([] : List Nat) }).allJobs := hjob
    obtain ⟨job1, hj1, hid1, hst1⟩ := foldl_cancelOne_jobs s.running _ job hjob
    have hj1b : job1 ∈ (s.queue.foldl cancelOne s).allJobs := hj1
    obtain ⟨job0, hj0, hid0, hst0b⟩ := foldl_cancelOne_jobs s.queue s job1 hj1b
    have hjs : job.status = job0.status := by
      rcases hst1 with h | h
      · rcases hst0b with h2 | h2
        · rw [h, h2]
        · rw [h, h2] at hterm
          rcases hterm with h3 | h3 <;> exact absurd h3 (by simp)
      · rw [h] at hterm
        rcases hterm with h3 | h3 <;> exact absurd h3 (by simp)
    rw [hjs] at hterm
    obtain ⟨hbd0b, _, _⟩ := fin job0 hj0 hterm
    refine ⟨?_, ?_, ?_⟩
    · show job.id ∈ (s.running.foldl cancelOne
        { s.queue.foldl cancelOne s with queue := ([] : List Nat) }).bodyDone
      rw [hbd0, hid1, hid0]
      exact hbd0b
    · show job.id ∉ (s.running.foldl cancelOne
        { s.queue.foldl cancelOne s with queue := ([] : List Nat) }).queue
      rw [hq0]
      exact List.not_mem_nil _
    · exact List.not_mem_nil _
  · intro job hjob hcanc
    show job.id ∉ (s.running.foldl cancelOne
      { s.queue.foldl cancelOne s with queue := ([] : List Nat) }).queue
    rw [hq0]
    exact List.not_mem_nil _

theorem schedInv_pause (s : SchedState) (hinv : SchedInv s) :
    SchedInv (pauseSched s) :=
  schedInv_setPaused s true hinv

theorem schedInv_resume (s : SchedState) (hinv : SchedInv s) :
    SchedInv (resumeSched s) :=
  schedInv_drain _ (schedInv_setPaused s false hinv)

theorem schedInv_init (n : Nat) : SchedInv (initSched n) := by
  refine ⟨?_, ?_, ?_, ?_, ?_, ?_, ?_, ?_, ?_, ?_, ?_, ?_⟩ <;>
    simp [initSched, jobIds]

theorem schedInv_applyOp (s : SchedState) (op : SchedOp) (hinv : SchedInv s) :
    SchedInv (applyOp s op) := by
  cases op with
  | enq a t => exact schedInv_enqueue s a t hinv
  | pauseOp => exact schedInv_pause s hinv
  | resumeOp => exact schedInv_resume s hinv
  | cancelOp j => exact schedInv_cancel s j hinv
  | cancelAllOp => exact schedInv_cancelAll s hinv
  | completeOp j oc => exact schedInv_completeJob s j oc hinv

theorem schedInv_applyOps (ops : List SchedOp) : ∀ s : SchedState,
    SchedInv s → SchedInv (applyOps s ops) := by
  induction ops with
  | nil => intro s h; exact h
  | cons op rest ih =>
    intro s h
    show SchedInv ((op :: rest).foldl applyOp s)
    rw [List.foldl_cons]
    exact ih (applyOp s op) (schedInv_applyOp s op h)

theorem schedInv_reachable (s : SchedState) (h : SchedReachable s) : SchedInv s := by
  obtain ⟨n, ops, rfl⟩ := h
  exact schedInv_applyOps ops (initSched n) (schedInv_init n)

theorem drain_maxParallel (s : SchedState) : (drain s).maxParallel = s.maxParallel := by
  unfold drain
  split
  · rfl
  · exact (drainAux_const s.queue s).2.2.2.1

theorem cancelAll_maxParallel (s : SchedState) :
    (cancelAll s).maxParallel = s.maxParallel := by
  unfold cancelAll
  dsimp only
  rw [(foldl_cancelOne_const _ _).2.2.2.2.1]
  exact (foldl_cancelOne_const _ _).2.2.2.2.1

theorem applyOp_maxParallel (s : SchedState) (op : SchedOp) :
    (applyOp s op).maxParallel = s.maxParallel := by
  cases op with
  | enq a t =>
    show (drain _).maxParallel = s.maxParallel
    rw [drain_maxParallel]
    rfl
  | pauseOp => rfl
  | resumeOp =>
    show (drain _).maxParallel = s.maxParallel
    rw [drain_maxParallel]
  | cancelOp j =>
    show (cancel s j).2.maxParallel = s.maxParallel
    unfold cancel
    by_cases hq : j ∈ s.queue
    · rw [if_pos hq]
      show (trySettle _ j SettleResult.rejected).maxParallel = _
      rw [trySettle_maxParallel]
      rfl
    · rw [if_neg hq]
      by_cases hr : j ∈ s.running
      · rw [if_pos hr]
        rfl
      · rw [if_neg hr]
  | cancelAllOp => exact cancelAll_maxParallel s
  | completeOp j oc =>
    show (completeJob s j oc).maxParallel = s.maxParallel
    unfold completeJob
    by_cases hg : j ∈ s.started ∧ j ∉ s.bodyDone
    · rw [if_pos hg, drain_maxParallel]
      show (trySettle _ j _).maxParallel = _
      rw [trySettle_maxParallel]
      rfl
    · rw [if_neg hg]

theorem applyOps_maxParallel (ops : List SchedOp) : ∀ s : SchedState,
    (applyOps s ops).maxParallel = s.maxParallel := by
  induction ops with
  | nil => intro s; rfl
  | cons op rest ih =>
    intro s
    show ((op :: rest).foldl applyOp s).maxParallel = s.maxParallel
    rw [List.foldl_cons]
    rw [show (rest.foldl applyOp (applyOp s op)).maxParallel =
      (applyOp s op).maxParallel from ih (applyOp s op)]
    exact applyOp_maxParallel s op

-- ══ C1: bounded concurrency ══════════════════════════════════════════════

/-- C1: for every concurrency bound `n ≥ 1` and any sequence of
enqueue/pause/resume/cancel/cancelAll operations and job-body
completions, the running set never holds more than `n` jobs, and no job
id is simultaneously in the pending queue and in the running set. -/
theorem running_bounded (n : Nat) (hn : 1 ≤ n) (ops : List SchedOp) :
    (applyOps (initSched n) ops).running.length ≤ n ∧
    ∀ j ∈ (applyOps (initSched n) ops).queue,
      j ∉ (applyOps (initSched n) ops).running := by
  have hinv := schedInv_applyOps ops (initSched n) (schedInv_init n)
  have hmp : (applyOps (initSched n) ops).maxParallel = n :=
    applyOps_maxParallel ops (initSched n)
  have hle := hinv.run_le
  rw [hmp] at hle
  exact ⟨hle, hinv.disjoint⟩

/-- Witness for C1: bound 1, two enqueues — one job admitted, one queued. -/
theorem running_bounded_witness :
    (applyOps (initSched 1) [SchedOp.enq "a" "t", SchedOp.enq "b" "t"]).running.length ≤ 1 :=
  (running_bounded 1 (by decide) [SchedOp.enq "a" "t", SchedOp.enq "b" "t"]).1

-- ══ Scheduler: status/settle stability lemmas ════════════════════════════

theorem lookupSettle_drain (s : SchedState) (j : Nat) :
    lookupSettle (drain s) j = lookupSettle s j := by
  unfold drain
  by_cases hp : s.paused
  · rw [if_pos hp]
  · rw [if_neg hp]
    exact lookupSettle_drainAux s.queue s j

theorem drain_bodyDone (s : SchedState) : (drain s).bodyDone = s.bodyDone := by
  unfold drain
  by_cases hp : s.paused
  · rw [if_pos hp]
  · rw [if_neg hp]
    exact (drainAux_const s.queue s).2.1

theorem getStatus_drain_notmem (s : SchedState) (j : Nat) (hj : j ∉ s.queue) :
    getStatus (drain s) j = getStatus s j ∧
    j ∉ (drain s).queue ∧
    ((j ∈ (drain s).started) ↔ j ∈ s.started) ∧
    ((j ∈ (drain s).running) ↔ j ∈ s.running) := by
  unfold drain
  by_cases hp : s.paused
  · rw [if_pos hp]
    exact ⟨rfl, hj, Iff.rfl, Iff.rfl⟩
  · rw [if_neg hp]
    exact drainAux_notmem s.queue s j rfl hj

theorem cancelAll_parts (s : SchedState) (hinv : SchedInv s) :
    (cancelAll s).queue = [] ∧
    (cancelAll s).running = [] ∧
    (cancelAll s).started = s.started ∧
    (cancelAll s).bodyDone = s.bodyDone ∧
    ∀ j, j ∈ s.queue ∨ j ∈ s.running →
      getStatus (cancelAll s) j = some JobStatus.cancelled ∧
      lookupSettle (cancelAll s) j = some SettleResult.rejected := by
  obtain ⟨run_le, qnd, rnd, disj, ids, qp, rs, stlt, bds, setl, fin, cout⟩ := hinv
  obtain ⟨q1, r1, st1, bd1, mp1, p1, len1, ids1⟩ := foldl_cancelOne_const s.queue s
  have hCA : cancelAll s = { List.foldl cancelOne
      { s.queue.foldl cancelOne s with queue := ([] : List Nat) } s.running
      with running := ([] : List Nat) } := by
    show { List.foldl cancelOne
      { s.queue.foldl cancelOne s with queue := ([] : List Nat) }
      ((s.queue.foldl cancelOne s).running) with running := ([] : List Nat) } = _
    rw [r1]
  obtain ⟨q2, r2, st2, bd2, mp2, p2, len2, ids2⟩ := foldl_cancelOne_const s.running
    { s.queue.foldl cancelOne s with queue := ([] : List Nat) }
  refine ⟨?_, ?_, ?_, ?_, ?_⟩
  · rw [hCA]
    show (List.foldl cancelOne
      { s.queue.foldl cancelOne s with queue := ([] : List Nat) } s.running).queue = []
    exact q2
  · rw [hCA]
  · rw [hCA]
    show (List.foldl cancelOne
      { s.queue.foldl cancelOne s with queue := ([] : List Nat) } s.running).started
      = s.started
    rw [st2]
    exact st1
  · rw [hCA]
    show (List.foldl cancelOne
      { s.queue.foldl cancelOne s with queue := ([] : List Nat) } s.running).bodyDone
      = s.bodyDone
    rw [bd2]
    exact bd1
  · intro j hj
    rw [hCA]
    rcases hj with hjq | hjr
    · have hjnr : j ∉ s.running := disj j hjq
      have hsome : (getStatus s j).isSome = true := by
        rw [(qp j hjq).1]
        rfl
      have hnone : lookupSettle s j = none := (qp j hjq).2.2
      obtain ⟨g1, l1⟩ := foldl_cancelOne_mem s.queue s j qnd hjq hsome hnone
      obtain ⟨g2, l2⟩ := foldl_cancelOne_notmem s.running
        { s.queue.foldl cancelOne s with queue := ([] : List Nat) } j hjnr
      constructor
      · show getStatus (List.foldl cancelOne
          { s.queue.foldl cancelOne s with queue := ([] : List Nat) } s.running) j = _
        rw [g2]
        exact g1
      · show lookupSettle (List.foldl cancelOne
          { s.queue.foldl cancelOne s with queue := ([] : List Nat) } s.running) j = _
        rw [l2]
        exact l1
    · have hjnq : j ∉ s.queue := fun hmem => disj j hmem hjr
      have hsome : (getStatus s j).isSome = true := by
        rcases (rs j hjr).1 with h | h <;> rw [h] <;> rfl
      obtain ⟨g1, l1⟩ := foldl_cancelOne_notmem s.queue s j hjnq
      have hsome1 : (getStatus { s.queue.foldl cancelOne s
          with queue := ([] : List Nat) } j).isSome = true := by
        show (getStatus (s.queue.foldl cancelOne s) j).isSome = true
        rw [g1]
        exact hsome
      have hnone1 : lookupSettle { s.queue.foldl cancelOne s
          with queue := ([] : List Nat) } j = none := by
        show lookupSettle (s.queue.foldl cancelOne s) j = none
        rw [l1]
        exact (rs j hjr).2.2.2
      obtain ⟨g2, l2⟩ := foldl_cancelOne_mem s.running
        { s.queue.foldl cancelOne s with queue := ([] : List Nat) } j rnd hjr hsome1 hnone1
      exact ⟨g2, l2⟩

theorem lookupSettle_completeJob_stay (s : SchedState) (j : Nat) (oc : Outcome)
    (r0 : SettleResult) (h : lookupSettle s j = some r0) :
    lookupSettle (completeJob s j oc) j = some r0 := by
  unfold completeJob
  by_cases hg : j ∈ s.started ∧ j ∉ s.bodyDone
  · rw [if_pos hg]
    cases oc with
    | success =>
      refine Eq.trans (lookupSettle_drain _ j) ?_
      exact lookupSettle_trySettle_stay
        (addEvent (setStatus s j JobStatus.completed) (SchedEvent.completed j)) j
        SettleResult.resolved r0 h
    | failure =>
      refine Eq.trans (lookupSettle_drain _ j) ?_
      exact lookupSettle_trySettle_stay
        (addEvent (setStatus s j JobStatus.failed) (SchedEvent.completed j)) j
        SettleResult.rejected r0 h
  · rw [if_neg hg]
    exact h

-- ══ C2: cancelAll ════════════════════════════════════════════════════════

/-- C2 counterexample: with bound 1, one enqueued job is immediately
running; `cancelAll()` rejects that running job's promise (the code's
second loop calls `item.reject` on running entries too), so when the body
later completes successfully the promise is already — and stays —
rejected, contrary to the claim that a running job's future is left to
settle by its own completion. -/
theorem cancelAll_rejects_running_future :
    (0 : Nat) ∈ sched1.running ∧
    (0 : Nat) ∉ schedAllCancelled.bodyDone ∧
    lookupSettle schedAllCancelled 0 = some SettleResult.rejected ∧
    lookupSettle (applyOp schedAllCancelled (SchedOp.completeOp 0 Outcome.success)) 0
      = some SettleResult.rejected := by decide

/-- C2 (corrected): `cancelAll()` empties both the pending queue and the
running set, marks every job that was pending or running cancelled, and
rejects the promise of every such job — pending and running alike. The
in-flight bodies are not interrupted (`started` and `bodyDone` are
untouched), but because a promise settles only once, a formerly running
job's later body settlement leaves its promise rejected rather than
settling it according to the body's own outcome. -/
theorem cancelAll_rejects_all (s : SchedState) (h : SchedReachable s) :
    (cancelAll s).queue = [] ∧
    (cancelAll s).running = [] ∧
    (cancelAll s).started = s.started ∧
    (cancelAll s).bodyDone = s.bodyDone ∧
    (∀ j, j ∈ s.queue ∨ j ∈ s.running →
      getStatus (cancelAll s) j = some JobStatus.cancelled ∧
      lookupSettle (cancelAll s) j = some SettleResult.rejected) ∧
    ∀ j ∈ s.running, ∀ oc : Outcome,
      lookupSettle (completeJob (cancelAll s) j oc) j = some SettleResult.rejected := by
  have hinv := schedInv_reachable s h
  obtain ⟨hq, hr, hst, hbd, hmem⟩ := cancelAll_parts s hinv
  refine ⟨hq, hr, hst, hbd, hmem, ?_⟩
  intro j hjr oc
  exact lookupSettle_completeJob_stay (cancelAll s) j oc SettleResult.rejected
    (hmem j (Or.inr hjr)).2

/-- Witness for C2: the reachable one-job state with job 0 running. -/
theorem cancelAll_rejects_all_witness :
    (cancelAll sched1).running = [] ∧
    lookupSettle (cancelAll sched1) 0 = some SettleResult.rejected := by
  obtain ⟨hq, hr, hst, hbd, hmem, hstick⟩ :=
    cancelAll_rejects_all sched1 ⟨1, [SchedOp.enq "a" "t"], rfl⟩
  exact ⟨hr, (hmem 0 (Or.inr (by decide))).2⟩

-- ══ C3: finality of terminal statuses ════════════════════════════════════

theorem drain_erase_stable (T : SchedState) (k j : Nat) (hq : j ∉ T.queue) :
    getStatus (drain { T with
        running := T.running.erase k
        bodyDone := T.bodyDone ++ [k] }) j = getStatus T j ∧
    j ∉ (drain { T with
        running := T.running.erase k
        bodyDone := T.bodyDone ++ [k] }).queue ∧
    ((j ∈ (drain { T with
        running := T.running.erase k
        bodyDone := T.bodyDone ++ [k] }).running) ↔ j ∈ T.running.erase k) ∧
    ((j ∈ (drain { T with
        running := T.running.erase k
        bodyDone := T.bodyDone ++ [k] }).started) ↔ j ∈ T.started) ∧
    (j ∈ T.bodyDone → j ∈ (drain { T with
        running := T.running.erase k
        bodyDone := T.bodyDone ++ [k] }).bodyDone) := by
  have key := getStatus_drain_notmem { T with
      running := T.running.erase k
      bodyDone := T.bodyDone ++ [k] } j hq
  refine ⟨key.1, key.2.1, key.2.2.2, key.2.2.1, ?_⟩
  intro hmem
  rw [drain_bodyDone]
  exact List.mem_append_left _ hmem

theorem enqueue_stable (s : SchedState) (a t : String) (j : Nat) (hq : j ∉ s.queue)
    (hlt : j < s.allJobs.length) (hsome : (getStatus s j).isSome = true) :
    getStatus (enqueue s a t) j = getStatus s j ∧
    j ∉ (enqueue s a t).queue ∧
    ((j ∈ (enqueue s a t).running) ↔ j ∈ s.running) ∧
    ((j ∈ (enqueue s a t).started) ↔ j ∈ s.started) ∧
    (enqueue s a t).bodyDone = s.bodyDone := by
  have hne : j ≠ s.allJobs.length := Nat.ne_of_lt hlt
  have hj2 : j ∉ s.queue ++ [s.allJobs.length] := by
    intro hmem
    rcases List.mem_append.mp hmem with h1 | h1
    · exact hq h1
    · exact hne (List.mem_singleton.mp h1)
  have key := getStatus_drain_notmem
    (addEvent { s with
        allJobs := s.allJobs ++ [mkJob s.allJobs.length a t]
        queue := s.queue ++ [s.allJobs.length] } (SchedEvent.scheduled s.allJobs.length))
    j hj2
  have h2 : getStatus (addEvent { s with
      allJobs := s.allJobs ++ [mkJob s.allJobs.length a t]
      queue := s.queue ++ [s.allJobs.length] } (SchedEvent.scheduled s.allJobs.length)) j
      = getStatus s j := by
    show ((s.allJobs ++ [mkJob s.allJobs.length a t]).find? (fun job => job.id = j)).map
        (fun job => job.status) = getStatus s j
    rw [find?_status_append s.allJobs [mkJob s.allJobs.length a t] j hsome]
    rfl
  refine ⟨key.1.trans h2, key.2.1, key.2.2.2, key.2.2.1, ?_⟩
  exact drain_bodyDone
    (addEvent { s with
        allJobs := s.allJobs ++ [mkJob s.allJobs.length a t]
        queue := s.queue ++ [s.allJobs.length] } (SchedEvent.scheduled s.allJobs.length))

theorem completeJob_stable (s : SchedState) (k j : Nat) (oc : Outcome) (hkj : j ≠ k)
    (hq : j ∉ s.queue) (hr : j ∉ s.running) (hbd : j ∈ s.started → j ∈ s.bodyDone) :
    getStatus (completeJob s k oc) j = getStatus s j ∧
    j ∉ (completeJob s k oc).queue ∧ j ∉ (completeJob s k oc).running ∧
    (j ∈ (completeJob s k oc).started → j ∈ (completeJob s k oc).bodyDone) := by
  unfold completeJob
  by_cases hg : k ∈ s.started ∧ k ∉ s.bodyDone
  · rw [if_pos hg]
    cases oc with
    | success =>
      have hqT : j ∉ (trySettle (addEvent (setStatus s k JobStatus.completed)
          (SchedEvent.completed k)) k SettleResult.resolved).queue := by
        rw [trySettle_queue, addEvent_queue, setStatus_queue]
        exact hq
      have key := drain_erase_stable (trySettle (addEvent (setStatus s k JobStatus.completed)
        (SchedEvent.completed k)) k SettleResult.resolved) k j hqT
      have h2 : getStatus (trySettle (addEvent (setStatus s k JobStatus.completed)
          (SchedEvent.completed k)) k SettleResult.resolved) j = getStatus s j := by
        rw [getStatus_trySettle, getStatus_addEvent, getStatus_setStatus_ne _ _ _ _ hkj]
      refine ⟨key.1.trans h2, key.2.1, ?_, ?_⟩
      · intro hmem
        have h3 := key.2.2.1.mp hmem
        rw [trySettle_running, addEvent_running, setStatus_running] at h3
        exact hr (List.mem_of_mem_erase h3)
      · intro hmem
        have h3 := key.2.2.2.1.mp hmem
        rw [trySettle_started, addEvent_started, setStatus_started] at h3
        refine key.2.2.2.2 ?_
        rw [trySettle_bodyDone, addEvent_bodyDone, setStatus_bodyDone]
        exact hbd h3
    | failure =>
      have hqT : j ∉ (trySettle (addEvent (setStatus s k JobStatus.failed)
          (SchedEvent.completed k)) k SettleResult.rejected).queue := by
        rw [trySettle_queue, addEvent_queue, setStatus_queue]
        exact hq
      have key := drain_erase_stable (trySettle (addEvent (setStatus s k JobStatus.failed)
        (SchedEvent.completed k)) k SettleResult.rejected) k j hqT
      have h2 : getStatus (trySettle (addEvent (setStatus s k JobStatus.failed)
          (SchedEvent.completed k)) k SettleResult.rejected) j = getStatus s j := by
        rw [getStatus_trySettle, getStatus_addEvent, getStatus_setStatus_ne _ _ _ _ hkj]
      refine ⟨key.1.trans h2, key.2.1, ?_, ?_⟩
      · intro hmem
        have h3 := key.2.2.1.mp hmem
        rw [trySettle_running, addEvent_running, setStatus_running] at h3
        exact hr (List.mem_of_mem_erase h3)
      · intro hmem
        have h3 := key.2.2.2.1.mp hmem
        rw [trySettle_started, addEvent_started, setStatus_started] at h3
        refine key.2.2.2.2 ?_
        rw [trySettle_bodyDone, addEvent_bodyDone, setStatus_bodyDone]
        exact hbd h3
  · rw [if_neg hg]
    exact ⟨rfl, hq, hr, hbd⟩

theorem getStatus_applyOp_stable (s : SchedState) (hinv : SchedInv s) (j : Nat)
    (op : SchedOp) (hq : j ∉ s.queue) (hr : j ∉ s.running)
    (hbd : j ∈ s.started → j ∈ s.bodyDone) (hsome : (getStatus s j).isSome = true) :
    getStatus (applyOp s op) j = getStatus s j ∧
    j ∉ (applyOp s op).queue ∧ j ∉ (applyOp s op).running ∧
    (j ∈ (applyOp s op).started → j ∈ (applyOp s op).bodyDone) := by
  have hlt : j < s.allJobs.length := (getStatus_isSome_iff s hinv.ids_range j).mp hsome
  cases op with
  | enq a t =>
    obtain ⟨e1, e2, e3, e4, e5⟩ := enqueue_stable s a t j hq hlt hsome
    refine ⟨e1, e2, fun hmem => hr (e3.mp hmem), fun hmem => ?_⟩
    show j ∈ (enqueue s a t).bodyDone
    rw [e5]
    exact hbd (e4.mp hmem)
  | pauseOp => exact ⟨rfl, hq, hr, hbd⟩
  | resumeOp =>
    have key := getStatus_drain_notmem { s with paused := false } j hq
    refine ⟨key.1, key.2.1, fun hmem => hr (key.2.2.2.mp hmem), fun hmem => ?_⟩
    have hst : j ∈ s.started := key.2.2.1.mp hmem
    show j ∈ (drain { s with paused := false }).bodyDone
    rw [drain_bodyDone]
    exact hbd hst
  | cancelOp k =>
    show getStatus (cancel s k).2 j = getStatus s j ∧
      j ∉ (cancel s k).2.queue ∧ j ∉ (cancel s k).2.running ∧
      (j ∈ (cancel s k).2.started → j ∈ (cancel s k).2.bodyDone)
    unfold cancel
    by_cases hk : k ∈ s.queue
    · have hjk : j ≠ k := fun hjk => hq (hjk ▸ hk)
      rw [if_pos hk]
      refine ⟨?_, ?_, ?_, ?_⟩
      · rw [getStatus_trySettle, getStatus_addEvent, getStatus_setStatus_ne _ _ _ _ hjk]
        rfl
      · rw [trySettle_queue, addEvent_queue, setStatus_queue]
        intro hmem
        exact hq (List.mem_of_mem_erase hmem)
      · rw [trySettle_running, addEvent_running, setStatus_running]
        exact hr
      · rw [trySettle_started, addEvent_started, setStatus_started,
          trySettle_bodyDone, addEvent_bodyDone, setStatus_bodyDone]
        exact hbd
    · rw [if_neg hk]
      by_cases hk2 : k ∈ s.running
      · have hjk : j ≠ k := fun hjk => hr (hjk ▸ hk2)
        rw [if_pos hk2]
        refine ⟨?_, ?_, ?_, ?_⟩
        · rw [getStatus_addEvent, getStatus_setStatus_ne _ _ _ _ hjk]
        · rw [addEvent_queue, setStatus_queue]
          exact hq
        · rw [addEvent_running, setStatus_running]
          exact hr
        · rw [addEvent_started, setStatus_started, addEvent_bodyDone, setStatus_bodyDone]
          exact hbd
      · rw [if_neg hk2]
        exact ⟨rfl, hq, hr, hbd⟩
  | cancelAllOp =>
    obtain ⟨q1, r1, st1, bd1, mp1, p1, len1, ids1⟩ := foldl_cancelOne_const s.queue s
    have hCA : cancelAll s = { List.foldl cancelOne
        { s.queue.foldl cancelOne s with queue := ([] : List Nat) } s.running
        with running := ([] : List Nat) } := by
      show { List.foldl cancelOne
        { s.queue.foldl cancelOne s with queue := ([] : List Nat) }
        ((s.queue.foldl cancelOne s).running) with running := ([] : List Nat) } = _
      rw [r1]
    obtain ⟨g1, l1⟩ := foldl_cancelOne_notmem s.queue s j hq
    obtain ⟨g2, l2⟩ := foldl_cancelOne_notmem s.running
      { s.queue.foldl cancelOne s with queue := ([] : List Nat) } j hr
    obtain ⟨q2, r2, st2, bd2, mp2, p2, len2, ids2⟩ := foldl_cancelOne_const s.running
      { s.queue.foldl cancelOne s with queue := ([] : List Nat) }
    refine ⟨?_, ?_, ?_, ?_⟩
    · show getStatus (cancelAll s) j = getStatus s j
      rw [hCA]
      show getStatus (List.foldl cancelOne
        { s.queue.foldl cancelOne s with queue := ([] : List Nat) } s.running) j
        = getStatus s j
      rw [g2]
      exact g1
    · show j ∉ (cancelAll s).queue
      rw [hCA]
      show j ∉ (List.foldl cancelOne
        { s.queue.foldl cancelOne s with queue := ([] : List Nat) } s.running).queue
      rw [q2]
      exact List.not_mem_nil j
    · show j ∉ (cancelAll s).running
      rw [hCA]
      exact List.not_mem_nil j
    · show j ∈ (cancelAll s).started → j ∈ (cancelAll s).bodyDone
      intro hsta
      rw [hCA] at hsta ⊢
      replace hsta : j ∈ (List.foldl cancelOne
        { s.queue.foldl cancelOne s with queue := ([] : List Nat) } s.running).started := hsta
      rw [st2] at hsta
      replace hsta : j ∈ (s.queue.foldl cancelOne s).started := hsta
      rw [st1] at hsta
      show j ∈ (List.foldl cancelOne
        { s.queue.foldl cancelOne s with queue := ([] : List Nat) } s.running).bodyDone
      rw [bd2]
      show j ∈ (s.queue.foldl cancelOne s).bodyDone
      rw [bd1]
      exact hbd hsta
  | completeOp k oc =>
    by_cases hkj : k = j
    · subst hkj
      have hg : ¬(k ∈ s.started ∧ k ∉ s.bodyDone) := fun hg => hg.2 (hbd hg.1)
      show getStatus (completeJob s k oc) k = getStatus s k ∧
        k ∉ (completeJob s k oc).queue ∧ k ∉ (completeJob s k oc).running ∧
        (k ∈ (completeJob s k oc).started → k ∈ (completeJob s k oc).bodyDone)
      unfold completeJob
      rw [if_neg hg]
      exact ⟨rfl, hq, hr, hbd⟩
    · exact completeJob_stable s k j oc (fun hjk => hkj hjk.symm) hq hr hbd

theorem getStatus_applyOps_stable (ops : List SchedOp) : ∀ s : SchedState, SchedInv s →
    ∀ j : Nat, j ∉ s.queue → j ∉ s.running → (j ∈ s.started → j ∈ s.bodyDone) →
    (getStatus s j).isSome = true →
    getStatus (applyOps s ops) j = getStatus s j := by
  induction ops with
  | nil => intro s _ j _ _ _ _; rfl
  | cons op rest ih =>
    intro s hinv j hq hr hbd hsome
    obtain ⟨g, hq2, hr2, hbd2⟩ := getStatus_applyOp_stable s hinv j op hq hr hbd hsome
    have hsome2 : (getStatus (applyOp s op) j).isSome = true := by
      rw [g]
      exact hsome
    show getStatus ((op :: rest).foldl applyOp s) j = getStatus s j
    rw [List.foldl_cons]
    rw [show getStatus (rest.foldl applyOp (applyOp s op)) j = getStatus (applyOp s op) j
      from ih (applyOp s op) (schedInv_applyOp s op hinv) j hq2 hr2 hbd2 hsome2]
    exact g

/-- C3 counterexample: with bound 1, job 0 is running; `cancel(0)` sets its
status to cancelled (a terminal status), yet when the job's body later
completes successfully the `.then` handler overwrites the status to
completed — a terminal status changed after being set. -/
theorem cancelled_running_overwritten :
    getStatus schedCancelled 0 = some JobStatus.cancelled ∧
    getStatus (applyOp schedCancelled (SchedOp.completeOp 0 Outcome.success)) 0
      = some JobStatus.completed := by decide

/-- C3 (corrected): in every reachable state, a completed or failed status
is final under every further operation sequence, and a cancelled status is
final provided the job was cancelled while still pending (its body never
started); the unqualified claim fails for a job cancelled while running,
whose status is overwritten to completed/failed when its body settles. -/
theorem terminal_status_final (s : SchedState) (h : SchedReachable s) (j : Nat)
    (ops : List SchedOp) :
    ((getStatus s j = some JobStatus.completed ∨ getStatus s j = some JobStatus.failed) →
      getStatus (applyOps s ops) j = getStatus s j) ∧
    (getStatus s j = some JobStatus.cancelled → j ∉ s.started →
      getStatus (applyOps s ops) j = some JobStatus.cancelled) := by
  have hinv := schedInv_reachable s h
  constructor
  · intro hterm
    have hsome : (getStatus s j).isSome = true := by
      rcases hterm with h1 | h1 <;> rw [h1] <;> rfl
    have hjob : ∃ job ∈ s.allJobs, job.id = j ∧
        (job.status = JobStatus.completed ∨ job.status = JobStatus.failed) := by
      rcases hterm with h1 | h1
      · obtain ⟨job, hm, hid, hst⟩ := getStatus_some_elim s j _ h1
        exact ⟨job, hm, hid, Or.inl hst⟩
      · obtain ⟨job, hm, hid, hst⟩ := getStatus_some_elim s j _ h1
        exact ⟨job, hm, hid, Or.inr hst⟩
    obtain ⟨job, hm, hid, hst⟩ := hjob
    obtain ⟨hbdj, hqj, hrj⟩ := hinv.final_done job hm hst
    rw [hid] at hbdj hqj hrj
    exact getStatus_applyOps_stable ops s hinv j hqj hrj (fun _ => hbdj) hsome
  · intro hc hns
    have hsome : (getStatus s j).isSome = true := by
      rw [hc]
      rfl
    obtain ⟨job, hm, hid, hst⟩ := getStatus_some_elim s j _ hc
    have hqj : job.id ∉ s.queue := hinv.cancelled_out job hm hst
    rw [hid] at hqj
    have hrj : j ∉ s.running := fun hmem => hns (hinv.run_state j hmem).2.1
    have hbdj : j ∈ s.started → j ∈ s.bodyDone := fun hmem => absurd hmem hns
    have hstable := getStatus_applyOps_stable ops s hinv j hqj hrj hbdj hsome
    rw [hstable, hc]

/-- Witness for C3: the completed job of `schedDone` keeps its status under
a later `cancel(0)`. -/
theorem terminal_status_final_witness :
    getStatus (applyOps schedDone [SchedOp.cancelOp 0]) 0 = getStatus schedDone 0 :=
  (terminal_status_final schedDone
    ⟨1, [SchedOp.enq "a" "t", SchedOp.completeOp 0 Outcome.success], rfl⟩
    0 [SchedOp.cancelOp 0]).1 (Or.inl (by decide))

end AgentBox
